import Mathlib

/-!
# Verification of the libsass selector-extension engine and output pipeline

Shallow embedding of the parts of `hcatlin/libsass` that the checked claims
concern:

* `src/src/capi_compiler.hpp` — the `Extender` (the Dart-sass `@extend` port):
  `extendPseudoComplex`, `extendList`, `extendCompound`, `extendWithoutPseudo`,
  `extendSimple`, `addExtension`, `trim`, `rotateSlice`, `dontTrimComplex`,
  `maxSourceSpecificity`.
* `src/src/extension.cpp` — `Extension::assertCompatibleMediaContext`.
* `src/source_map.cpp` — `SourceMap::serialize_mappings`.
* `src/inspect.cpp` — `Inspect::operator()(Number*)`, `quote`, `unquote`.

Selector structures are modelled with the observable components the embedded
functions inspect.  Collaborator functions whose implementations are not part
of the analysed sources (`ComplexSelector::isSuperselectorOf`,
`minSpecificity`, `maxSpecificity`, `unifyComplex`, the recursive
`extendPseudo` callee, the `stringstream` floating-point formatter) are taken
as explicit parameters, at exactly the call boundaries where the C++ invokes
them.  `std::string` is modelled as `List Char`.

The file is organised as definitions first, then the theorems.
-/

namespace LibSass

/-! ## `quote` / `unquote` from `src/inspect.cpp:800-833` -/

/-- Loop body of `quote` (`src/inspect.cpp:827-830`): each character equal to
the quote mark `q` is emitted with a preceding backslash, all others
verbatim. -/
def quoteEsc (q : Char) : List Char → List Char
  | [] => []
  | c :: rest => (if c == q then ['\\', c] else [c]) ++ quoteEsc q rest

/-- `quote(s, q)` from `src/inspect.cpp:820-833`: an empty input yields the
bare quote pair `string(2, q)`; an input starting with a quote character, or a
NUL quote mark (`!q`), is returned unchanged; otherwise the input is wrapped
in `q` with embedded occurrences of `q` backslash-escaped. -/
def quote (s : List Char) (q : Char) : List Char :=
  match s with
  | [] => [q, q]
  | c :: rest =>
    if q == Char.ofNat 0 || c == '"' || c == '\'' then c :: rest
    else q :: (quoteEsc q (c :: rest) ++ [q])

/-- Loop of `unquote` (`src/inspect.cpp:812-816`): scan the characters strictly
between the wrapping quotes, threading the previous character `s[i-1]` of the
original string; a quote character preceded by a backslash first removes the
backslash just appended to the accumulator `t`. -/
def unquoteLoop (q : Char) : Char → List Char → List Char → List Char
  | _, [], t => t
  | prev, c :: rest, t =>
    unquoteLoop q c rest ((if prev == '\\' && c == q then t.dropLast else t) ++ [c])

/-- `unquote(s)` from `src/inspect.cpp:800-818`: empty and single-quote-char
strings map to the empty string; a string wrapped in a matching pair of `"` or
a matching pair of `'` has the pair stripped and each backslash preceding an
embedded wrapping-quote character removed; anything else is returned
unchanged. -/
def unquote (s : List Char) : List Char :=
  match s with
  | [] => []
  | [c] => if c == '"' || c == '\'' then [] else [c]
  | c :: c2 :: rest =>
    let last := (c2 :: rest).getLastD c
    if c == '"' && last == '"' then
      unquoteLoop '"' c ((c2 :: rest).dropLast) []
    else if c == '\'' && last == '\'' then
      unquoteLoop '\'' c ((c2 :: rest).dropLast) []
    else c :: c2 :: rest

/-! ## `Extension::assertCompatibleMediaContext` from `src/src/extension.cpp:27-38`

A `CssMediaRule_Obj` is a nullable reference, modelled as
`Option CssMediaRule`.  The rule's `block()` is a heap object compared by
pointer (`ObjPtrEqualityFn`); `blockId` models that pointer identity.
`ObjEqualityFn<CssMediaRule_Obj>` compares the rules by value (and treats two
null references as equal); `queries` models the value contents. -/

/-- A CSS `@media` rule as used for `@extend` media contexts: `blockId` is the
identity of the underlying block pointer, `queries` the media-query value
contents. -/
structure CssMediaRule where
  blockId : Nat
  queries : List Nat
deriving DecidableEq, Repr

/-- `ObjPtrEqualityFn(a->block(), b->block())` guarded by non-nullness of both
sides: pointer identity of the two blocks. -/
def objPtrEqualityBlocks : Option CssMediaRule → Option CssMediaRule → Bool
  | some a, some b => a.blockId == b.blockId
  | _, _ => false

/-- `ObjEqualityFn<CssMediaRule_Obj>`: value equality of two nullable media
rules, two null references counting as equal. -/
def objEqualityMediaRule : Option CssMediaRule → Option CssMediaRule → Bool
  | none, none => true
  | some a, some b => a.queries == b.queries
  | _, _ => false

/-- The `Exception::ExtendAcrossMedia` error thrown by
`assertCompatibleMediaContext` (`src/src/error_handling.cpp:201-208`). -/
structure ExtendAcrossMediaErr where
deriving DecidableEq, Repr

/-- `Extension::assertCompatibleMediaContext(mediaQueryContext)` from
`src/src/extension.cpp:27-38`, with `mediaContext` the extension's own
context: returns immediately when the extension's context is null; returns
when the query context is non-null and the two blocks are pointer-identical;
returns when the two contexts are value-equal; otherwise throws
`ExtendAcrossMedia`. -/
def assertCompatibleMediaContext (mediaContext mediaQueryContext : Option CssMediaRule) :
    Except ExtendAcrossMediaErr Unit :=
  if mediaContext.isNone then .ok ()
  else if mediaQueryContext.isSome && objPtrEqualityBlocks mediaContext mediaQueryContext then
    .ok ()
  else if objEqualityMediaRule mediaQueryContext mediaContext then .ok ()
  else .error ⟨⟩

/-! ## `extendPseudoComplex` from `src/src/capi_compiler.hpp:874-917`

The selector AST as the function inspects it: a complex selector is a list of
components (compound selectors or combinators), a compound selector a list of
simple selectors, and a pseudo selector carries its raw `name`, its
case-`normalized` name, an optional opaque `argument`, and an optional nested
`selector` list (null for pseudos like `:hover`).  The inner pseudo's nested
list is returned whole, so the types are mutually recursive. -/

mutual

/-- A simple selector: a pseudo selector, or any other kind of simple selector
(type/class/id/attribute/placeholder), identified by an id since
`extendPseudoComplex` only discriminates the pseudo case. -/
inductive PSimple : Type where
  | pseudo (p : PPseudo) : PSimple
  | other (id : Nat) : PSimple

/-- A pseudo selector (`Pseudo_Selector`): raw name, normalized name, optional
argument, optional nested selector list. -/
inductive PPseudo : Type where
  | mk (name : String) (normalized : String) (argument : Option String)
      (selector : Option PSelectorList) : PPseudo

/-- A component of a complex selector: a compound selector or a combinator. -/
inductive PComponent : Type where
  | compound (elements : List PSimple) : PComponent
  | combinator (kind : Nat) : PComponent

/-- A complex selector: its list of components. -/
inductive PComplex : Type where
  | mk (elements : List PComponent) : PComplex

/-- A selector list: its list of complex selectors. -/
inductive PSelectorList : Type where
  | mk (elements : List PComplex) : PSelectorList

end

/-- Accessor: `Pseudo_Selector::name()`. -/
def PPseudo.name : PPseudo → String
  | .mk n _ _ _ => n

/-- Accessor: `Pseudo_Selector::normalized()`. -/
def PPseudo.normalized : PPseudo → String
  | .mk _ n _ _ => n

/-- Accessor: `Pseudo_Selector::argument()`. -/
def PPseudo.argument : PPseudo → Option String
  | .mk _ _ a _ => a

/-- Accessor: `Pseudo_Selector::selector()`. -/
def PPseudo.selector : PPseudo → Option PSelectorList
  | .mk _ _ _ s => s

/-- Accessor: `ComplexSelector::elements()`. -/
def PComplex.elements : PComplex → List PComponent
  | .mk es => es

/-- Accessor: `SelectorList::elements()`. -/
def PSelectorList.elements : PSelectorList → List PComplex
  | .mk es => es

/-- `extendPseudoComplex(complex, pseudo, mediaQueryContext)` from
`src/src/capi_compiler.hpp:874-917`: unless `complex` is a single compound
holding a single pseudo selector with a nested selector list, return
`{complex}`.  For a `:not` wrapper, flatten an inner `:matches` and decline
everything else.  The `matches/any/current/nth-child/nth-last-child` arm and
the `has/host/host-context/slotted` arm are guarded by `&&`-chains of
equalities on the same `name`, transcribed literally.  Fall through to the
empty list. -/
def extendPseudoComplex (complex : PComplex) (pseudo : PPseudo)
    (_mediaQueryContext : Option CssMediaRule) : List PComplex :=
  match complex.elements with
  | [PComponent.compound [PSimple.pseudo innerPseudo]] =>
    match innerPseudo.selector with
    | none => [complex]
    | some innerSel =>
      let name := pseudo.normalized
      if name == "not" then
        if innerPseudo.normalized != "matches" then []
        else innerSel.elements
      else if name == "matches" && name == "any" && name == "current" &&
          name == "nth-child" && name == "nth-last-child" then
        if innerPseudo.name != pseudo.name then []
        else if !(innerPseudo.argument == pseudo.argument) then []
        else innerSel.elements
      else if name == "has" && name == "host" && name == "host-context" &&
          name == "slotted" then
        [complex]
      else []
  | _ => [complex]

/-! ## The `Extender` engine model

For the `Extender` functions (`trim`, `extendList`, `extendCompound`,
`addExtension`) the selector AST is modelled by the observables they inspect:
a simple selector is identified by its value (a `Nat` id — distinct ids stand
for value-distinct simple selectors), a component is a compound (list of
simples) or a combinator, and a complex selector is its component list plus
the `hasPreLineFeed` flag.  Equality of the model values is the C++ value
equality (`ObjEquality`).  `minSpecificity`, `isSuperselectorOf` and
`maxSpecificity` are implemented in `ast_selectors`, outside the analysed
sources; they enter as fields of an explicit context, read at exactly the
call sites where the C++ calls them. -/

/-- A component of a complex selector in the engine model. -/
inductive SelectorComponent : Type where
  | compound (elements : List Nat)
  | combinator (kind : Nat)
deriving DecidableEq, Repr

/-- A complex selector in the engine model. -/
structure ComplexSelector where
  hasPreLineFeed : Bool
  elements : List SelectorComponent
deriving DecidableEq, Repr

/-- `ExtendMode` from `extender.hpp`: `NORMAL`, `REPLACE`, `TARGETS`. -/
inductive ExtendMode : Type where
  | normal
  | replace
  | targets
deriving DecidableEq, Repr

/-- An `Extension` (`extension.hpp`): the extender complex selector, the
target simple selector (null until assigned), the recorded specificity, the
optional/original flags and the media context. -/
structure Extension where
  extender : ComplexSelector
  target : Option Nat
  specificity : Nat
  isOptional : Bool
  isOriginal : Bool
  mediaContext : Option CssMediaRule
deriving DecidableEq, Repr

/-- The `Extension(complex)` constructor: wraps an extender with default
fields (no target, specificity 0, not optional, not original, null media
context). -/
def Extension.ofComplex (complex : ComplexSelector) : Extension :=
  { extender := complex, target := none, specificity := 0, isOptional := false,
    isOriginal := false, mediaContext := none }

/-- `SimpleSelector::wrapInComplex()`: the simple wrapped in a one-compound
complex selector. -/
def wrapInComplexSimple (simple : Nat) : ComplexSelector :=
  ⟨false, [SelectorComponent.compound [simple]]⟩

/-- An `ExtSelExtMapEntry`: the ordered map from extender complex selectors
to `Extension`s, modelled as an insertion-ordered association list with
unique keys. -/
abbrev ExtSelExtMapEntry := List (ComplexSelector × Extension)

/-- An `ExtSelExtMap`: the map from target simple selectors to entries,
modelled as an association list with unique keys (`length` is the map's
`size()`). -/
abbrev ExtSelExtMap := List (Nat × ExtSelExtMapEntry)

/-- Insertion into an `ExtSmplSelSet` (a set of simple selectors, tracked in
insertion order; only `insert`, `size` and `empty` are used). -/
def setInsert (s : List Nat) (x : Nat) : List Nat :=
  if x ∈ s then s else s ++ [x]

/-- Collaborator functions and `Extender` state read by the embedded
`Extender` member functions:
`minSpecificity`/`isSuperselectorOf` and the pseudo-selector test are from
`ast_selectors` (outside the analysed sources); `sourceSpecificity` is the
`Extender::sourceSpecificity` map (`none` models a missing key);
`extendPseudoFn` stands for the recursive `extendPseudo` callee of
`extendSimple` (whose body re-enters `extendList`), returning the rewritten
pseudo selectors; `unifyComplex` is the unifier from `ast_sel_unify`
(outside the analysed sources). -/
structure ExtenderCtx where
  minSpecificity : ComplexSelector → Nat
  maxSpecificity : ComplexSelector → Nat
  isSuperselectorOf : ComplexSelector → ComplexSelector → Bool
  sourceSpecificity : Nat → Option Nat
  isPseudoWithSelector : Nat → Bool
  extendPseudoFn : Nat → ExtSelExtMap → Option CssMediaRule → List Nat
  unifyComplex : List (List SelectorComponent) → List (List SelectorComponent)

/-- `Extender::maxSourceSpecificity(SimpleSelectorObj)` from
`src/src/capi_compiler.hpp:1086-1091`: the `sourceSpecificity` map entry, or
0 when absent. -/
def maxSourceSpecificitySimple (ctx : ExtenderCtx) (simple : Nat) : Nat :=
  match ctx.sourceSpecificity simple with
  | none => 0
  | some s => s

/-- `Extender::maxSourceSpecificity(CompoundSelectorObj)` from
`src/src/capi_compiler.hpp:1094-1102`: maximum of the simples' source
specificities, starting from 0. -/
def maxSourceSpecificityCompound (ctx : ExtenderCtx) (compound : List Nat) : Nat :=
  compound.foldl (fun specificity simple =>
    max specificity (maxSourceSpecificitySimple ctx simple)) 0

/-- `dontTrimComplex(complex2, complex1, maxSpecificity)` from
`src/src/capi_compiler.hpp:981-988`: false when `complex2`'s minimum
specificity is below `maxSpecificity`, else whether `complex2` is a
super-selector of `complex1`. -/
def dontTrimComplex (ctx : ExtenderCtx) (complex2 complex1 : ComplexSelector)
    (maxSpecificity : Nat) : Bool :=
  if ctx.minSpecificity complex2 < maxSpecificity then false
  else ctx.isSuperselectorOf complex2 complex1

/-- `rotateSlice(list, start, end)` from `src/src/capi_compiler.hpp:994-1001`:
rotate the elements from `start` (inclusive) to `stop` (exclusive) one index
higher, looping the final element back to `start`.  The C++ is called with
`start < stop ≤ list.size()`; on an empty slice the model returns the list
unchanged. -/
def rotateSlice (list : List ComplexSelector) (start stop : Nat) :
    List ComplexSelector :=
  let middle := (list.drop start).take (stop - start)
  match middle.getLast? with
  | none => list
  | some element => list.take start ++ element :: middle.dropLast ++ list.drop stop

/-- The `maxSpecificity` accumulation inside `trim`
(`src/src/capi_compiler.hpp:1053-1058`): maximum source specificity over the
compound components of `complex1`. -/
def trimMaxSpecificity (ctx : ExtenderCtx) (complex1 : ComplexSelector) : Nat :=
  complex1.elements.foldl (fun maxSpecificity component =>
    match component with
    | .compound compound =>
      max maxSpecificity (maxSourceSpecificityCompound ctx compound)
    | .combinator _ => maxSpecificity) 0

/-- One pass of the `trim` loop (`src/src/capi_compiler.hpp:1031-1078`,
`for (size_t i = selectors.size() - 1; i != npos; i--)` with `i = k - 1`):
an original candidate found (by value) among the first `numOriginals` kept
entries triggers `rotateSlice(result, 0, j + 1)` followed by `goto redo`,
returned as `Sum.inl` of the updated state; otherwise originals are kept,
and a non-original is dropped when some already-kept entry (`hasAny(result,
dontTrimComplex, …)`) or some earlier input candidate
(`hasSubAny(selectors, i, dontTrimComplex, …)`) dominates it.  `hasAny` and
`hasSubAny` are modelled from the spec: they live in `dart_helpers.hpp`,
outside the analysed sources; per the call-site comments they test whether
any element of the vector (respectively of its first `i` elements)
satisfies the predicate. -/
def trimPass (ctx : ExtenderCtx) (existing : ComplexSelector → Bool)
    (selectors : List ComplexSelector) :
    Nat → List ComplexSelector → Nat →
      ((List ComplexSelector × Nat) ⊕ List ComplexSelector)
  | 0, result, _ => Sum.inr result
  | k + 1, result, numOriginals =>
    let complex1 := selectors.getD k ⟨false, []⟩
    if existing complex1 then
      match (result.take numOriginals).findIdx? (fun r => r == complex1) with
      | some j => Sum.inl (rotateSlice result 0 (j + 1), numOriginals)
      | none =>
        trimPass ctx existing selectors k (complex1 :: result) (numOriginals + 1)
    else
      let maxSpecificity := trimMaxSpecificity ctx complex1
      if result.any (fun complex2 => dontTrimComplex ctx complex2 complex1 maxSpecificity) then
        trimPass ctx existing selectors k result numOriginals
      else if (selectors.take k).any
          (fun complex2 => dontTrimComplex ctx complex2 complex1 maxSpecificity) then
        trimPass ctx existing selectors k result numOriginals
      else
        trimPass ctx existing selectors k (complex1 :: result) numOriginals

/-- The `redo` loop of `trim`: `goto redo` restarts the whole pass at the
last index, keeping `result` and `numOriginals`.  The C++ places no bound on
the restarts; `fuel` bounds them in the model, and `none` means the C++
executes at least `fuel` restarts (see C6: on a duplicated original the state
repeats and the loop never terminates). -/
def trimGo (ctx : ExtenderCtx) (existing : ComplexSelector → Bool)
    (selectors : List ComplexSelector) :
    Nat → List ComplexSelector → Nat → Option (List ComplexSelector)
  | 0, _, _ => none
  | fuel + 1, result, numOriginals =>
    match trimPass ctx existing selectors selectors.length result numOriginals with
    | Sum.inr r => some r
    | Sum.inl (r, n) => trimGo ctx existing selectors fuel r n

/-- `Extender::trim(selectors, existing)` from
`src/src/capi_compiler.hpp:1011-1082`: lists longer than 100 are returned
untrimmed; otherwise the reverse scan runs from an empty `result`. -/
def trim (ctx : ExtenderCtx) (selectors : List ComplexSelector)
    (existing : ComplexSelector → Bool) (fuel : Nat) :
    Option (List ComplexSelector) :=
  if selectors.length > 100 then some selectors
  else trimGo ctx existing selectors fuel [] 0

/-- Specification recursion for the amended C2, written from the amended
claim's words for comparison with `trim`: scanning the candidates from last
to first, an original (a member of `existing`) is always kept, and a
non-original is kept exactly when, at the moment it is examined, no
already-kept selector and no earlier input candidate dominates it in the
sense of `dontTrimComplex` (minimum specificity at least the candidate's
maximum source specificity, and a super-selector of it). -/
def trimAmendedSpec (ctx : ExtenderCtx) (existing : ComplexSelector → Bool)
    (selectors : List ComplexSelector) :
    Nat → List ComplexSelector → List ComplexSelector
  | 0, kept => kept
  | k + 1, kept =>
    let c := selectors.getD k ⟨false, []⟩
    if existing c then trimAmendedSpec ctx existing selectors k (c :: kept)
    else
      let m := trimMaxSpecificity ctx c
      if kept.any (fun c2 => dontTrimComplex ctx c2 c m) ||
          (selectors.take k).any (fun c2 => dontTrimComplex ctx c2 c m) then
        trimAmendedSpec ctx existing selectors k kept
      else trimAmendedSpec ctx existing selectors k (c :: kept)

/-! ## `extendList`, `extendCompound` and their helpers
from `src/src/capi_compiler.hpp:455-868` -/

/-- `Extender::extensionForSimple(simple)` from
`src/src/capi_compiler.hpp:612-618`: a one-off `Extension` wrapping the
simple, with the simple's max source specificity, marked original. -/
def extensionForSimple (ctx : ExtenderCtx) (simple : Nat) : Extension :=
  { Extension.ofComplex (wrapInComplexSimple simple) with
      specificity := maxSourceSpecificitySimple ctx simple
      isOriginal := true }

/-- `Extender::extensionForCompound(simples)` from
`src/src/capi_compiler.hpp:625-632`: a one-off `Extension` wrapping a fresh
compound of the simples, marked original (its specificity is left at the
default — the assignment is commented out in the source). -/
def extensionForCompound (simples : List Nat) : Extension :=
  { Extension.ofComplex ⟨false, [SelectorComponent.compound simples]⟩ with
      isOriginal := true }

/-- `Extender::extendWithoutPseudo(simple, extensions, targetsUsed)` from
`src/src/capi_compiler.hpp:810-836`: no entry for `simple` gives the empty
list; otherwise `simple` is recorded in `targetsUsed` (when tracking), and
the entry's extensions are returned — prefixed with the "self" extension
`extensionForSimple(simple)` except in `REPLACE` mode.  The mutated
`targetsUsed` is returned alongside. -/
def extendWithoutPseudo (ctx : ExtenderCtx) (mode : ExtendMode) (simple : Nat)
    (extensions : ExtSelExtMap) (targetsUsed : Option (List Nat)) :
    List Extension × Option (List Nat) :=
  match List.lookup simple extensions with
  | none => ([], targetsUsed)
  | some extenders =>
    let targetsUsed := targetsUsed.map (fun s => setInsert s simple)
    if mode == ExtendMode.replace then (extenders.map Prod.snd, targetsUsed)
    else (extensionForSimple ctx simple :: extenders.map Prod.snd, targetsUsed)

/-- `Extender::extendSimple(simple, extensions, mediaQueryContext,
targetsUsed)` from `src/src/capi_compiler.hpp:842-868`: for a pseudo selector
with a nested selector list, rewrite it through `extendPseudo` (the recursive
callee, `ctx.extendPseudoFn`) and extend each rewritten pseudo without
recursion, substituting the one-off self extension when nothing matched; when
the rewrite produced nothing — or for a non-pseudo simple — fall back to
`extendWithoutPseudo`, wrapping a non-empty result as a singleton. -/
def extendSimple (ctx : ExtenderCtx) (mode : ExtendMode) (simple : Nat)
    (extensions : ExtSelExtMap) (mediaQueryContext : Option CssMediaRule)
    (targetsUsed : Option (List Nat)) :
    List (List Extension) × Option (List Nat) :=
  let fallback := fun (tu : Option (List Nat)) =>
    let (result, tu') := extendWithoutPseudo ctx mode simple extensions tu
    (if result.isEmpty then ([] : List (List Extension)) else [result], tu')
  if ctx.isPseudoWithSelector simple then
    let extended := ctx.extendPseudoFn simple extensions mediaQueryContext
    if extended.isEmpty then fallback targetsUsed
    else
      extended.foldl
        (fun (acc : List (List Extension) × Option (List Nat)) extend =>
          let (result, tu') := extendWithoutPseudo ctx mode extend extensions acc.2
          let result := if result.isEmpty then [extensionForSimple ctx extend] else result
          (acc.1 ++ [result], tu'))
        ([], targetsUsed)
  else fallback targetsUsed

/-- Modelled from the spec: `permutate` (from `permutate.hpp`, not among the
analysed sources) — the Cartesian product of the option lists, first
coordinate varying slowest, so the tuple of first elements comes first. -/
def permutate {α : Type} : List (List α) → List (List α)
  | [] => [[]]
  | l :: rest => l.flatMap (fun x => (permutate rest).map (fun path => x :: path))

/-- The `options` loop of `extendCompound`
(`src/src/capi_compiler.hpp:662-683`) together with the final `targetsUsed`
set: simples whose `extendSimple` found nothing contribute their one-off self
extension (only once options exist); the first match materialises the
preceding simples as a compound extension. -/
def extendCompoundOptions (ctx : ExtenderCtx) (mode : ExtendMode)
    (compound : List Nat) (extensions : ExtSelExtMap)
    (mediaQueryContext : Option CssMediaRule) :
    List (List Extension) × Option (List Nat) :=
  let targetsUsed0 : Option (List Nat) :=
    if mode != ExtendMode.normal && extensions.length > 1 then some [] else none
  (List.range compound.length).foldl
    (fun (st : List (List Extension) × Option (List Nat)) i =>
      let simple := compound.getD i 0
      let (extended, tu') := extendSimple ctx mode simple extensions mediaQueryContext st.2
      if extended.isEmpty then
        ((if !st.1.isEmpty then st.1 ++ [[extensionForSimple ctx simple]] else st.1), tu')
      else
        ((if st.1.isEmpty && i != 0 then [[extensionForCompound (compound.take i)]]
          else st.1) ++ extended, tu'))
    ([], targetsUsed0)

/-- The path loop of `extendCompound` (`src/src/capi_compiler.hpp:740-800`):
the first path (outside `REPLACE` mode) merges the trailing compounds without
unification; later paths split into original last-simples (merged into one
compound) and extender component lists, unified through `unifyComplex` — an
empty unification aborts the whole call with the empty list (`Sum`-free here:
`none`).  Each path asserts every extension's media context (which can throw
`ExtendAcrossMedia`) and contributes one complex selector per unified
component list, inheriting any `hasPreLineFeed`. -/
def extendCompoundLoop (ctx : ExtenderCtx) (mediaQueryContext : Option CssMediaRule) :
    List (List Extension) → Bool → List ComplexSelector →
    Except ExtendAcrossMediaErr (Option (List ComplexSelector))
  | [], _, unifiedPaths => .ok (some unifiedPaths)
  | path :: rest, first, unifiedPaths =>
    let stepResult : Option (List (List SelectorComponent)) × Bool :=
      if first then
        let mergedSelector := path.foldl (fun merged state =>
          match state.extender.elements.getLast? with
          | some (SelectorComponent.compound compound) => merged ++ compound
          | _ => merged) []
        (some [[SelectorComponent.compound mergedSelector]], false)
      else
        let originals := path.foldl (fun orig state =>
          if state.isOriginal then
            match state.extender.elements.getLast? with
            | some (SelectorComponent.compound compound) => orig ++ compound.getLast?.toList
            | _ => orig
          else orig) []
        let toUnify := path.foldl (fun acc state =>
          if state.isOriginal then acc else acc ++ [state.extender.elements]) []
        let toUnify := if !originals.isEmpty
          then [SelectorComponent.compound originals] :: toUnify else toUnify
        let complexes := ctx.unifyComplex toUnify
        (if complexes.isEmpty then none else some complexes, first)
    match stepResult.1 with
    | none => .ok none
    | some complexes =>
      match path.mapM (fun state =>
          assertCompatibleMediaContext state.mediaContext mediaQueryContext) with
      | .error e => .error e
      | .ok _ =>
        let lineBreak := path.any (fun state => state.extender.hasPreLineFeed)
        let sels := complexes.map (fun components => ComplexSelector.mk lineBreak components)
        extendCompoundLoop ctx mediaQueryContext rest stepResult.2 (unifiedPaths ++ sels)

/-- `Extender::extendCompound(compound, extensions, mediaQueryContext,
inOriginal)` from `src/src/capi_compiler.hpp:641-803`.  `targetsUsed` is
tracked only outside `NORMAL` mode with more than one target; empty options
give the empty list; a tracked, non-empty, incomplete `targetsUsed` gives the
empty list; a single option list short-circuits (asserting media contexts)
to its extenders; otherwise every path of `permutate(options)` is unified
and collected. -/
def extendCompound (ctx : ExtenderCtx) (mode : ExtendMode) (compound : List Nat)
    (extensions : ExtSelExtMap) (mediaQueryContext : Option CssMediaRule)
    (_inOriginal : Bool) : Except ExtendAcrossMediaErr (List ComplexSelector) :=
  let st := extendCompoundOptions ctx mode compound extensions mediaQueryContext
  let options := st.1
  let targetsUsed := st.2
  if options.isEmpty then .ok []
  else if (match targetsUsed with
    | some tu => tu.length != extensions.length && !tu.isEmpty
    | none => false) then .ok []
  else if options.length == 1 then
    match (options.getD 0 []).mapM (fun ext =>
        assertCompatibleMediaContext ext.mediaContext mediaQueryContext) with
    | .error e => .error e
    | .ok _ => .ok ((options.getD 0 []).map (fun ext => ext.extender))
  else
    let first := mode != ExtendMode.replace
    match extendCompoundLoop ctx mediaQueryContext (permutate options) first [] with
    | .error e => .error e
    | .ok none => .ok []
    | .ok (some unifiedPaths) => .ok unifiedPaths

/-- Loop body of `extendList` (`src/src/capi_compiler.hpp:464-483`): thread
the `extended` accumulator over index `i`; an empty per-complex result only
appends the untouched complex once `extended` is non-empty, while the first
non-empty result materialises the preceding untouched complexes. -/
def extendListStep (extendComplexFn : ComplexSelector → List ComplexSelector)
    (list : List ComplexSelector) (extended : List ComplexSelector) (i : Nat) :
    List ComplexSelector :=
  let complex := list.getD i ⟨false, []⟩
  let result := extendComplexFn complex
  if result.isEmpty then
    if !extended.isEmpty then extended ++ [complex] else extended
  else
    (if extended.isEmpty then list.take i else extended) ++ result

/-- `Extender::extendList(list, extensions, mediaQueryContext)` from
`src/src/capi_compiler.hpp:455-493`: run the loop; if nothing was extended
return `list` itself (no allocation, no trim), otherwise return the trimmed
concatenation.  `extendComplexFn` stands for the recursive `extendComplex`
callee (whose body re-enters `extendCompound` and, through pseudos,
`extendList` itself); `originals` is the `Extender::originals` set; `fuel`
bounds `trim`'s `goto redo` restarts as in `trim`. -/
def extendList (ctx : ExtenderCtx) (originals : ComplexSelector → Bool)
    (extendComplexFn : ComplexSelector → List ComplexSelector)
    (list : List ComplexSelector) (fuel : Nat) : Option (List ComplexSelector) :=
  let extended := (List.range list.length).foldl (extendListStep extendComplexFn list) []
  if extended.isEmpty then some list
  else trim ctx extended originals fuel

/-! ## `addExtension` from `src/src/capi_compiler.hpp:264-339`

The mutable `Extender` object state that `addExtension` reads and writes.
Ordered maps become insertion-ordered association lists with unique keys;
the selector-list handles registered in `selectors` are `Nat` ids whose
current contents live in `ruleLists` (mutated only by the
`extendExistingStyleRules` callee). -/

/-- The `Extender` state touched by `addExtension`: the `selectors` reverse
index (target simple → registered selector-list handles), the `extensions`
map, the `extensionsByExtender` index, the `sourceSpecificity` map, and the
contents of the registered selector lists. -/
structure ExtenderState where
  selectors : List (Nat × List Nat)
  extensions : ExtSelExtMap
  extensionsByExtender : List (Nat × List Extension)
  sourceSpecificity : List (Nat × Nat)
  ruleLists : List (Nat × List ComplexSelector)
deriving DecidableEq, Repr

/-- Ordered-map entry read: `extensions[target]` after the entry exists
(empty when absent). -/
def mapGetEntry (m : ExtSelExtMap) (key : Nat) : ExtSelExtMapEntry :=
  (List.lookup key m).getD []

/-- Ordered-map entry write: replace the entry in place when the key exists,
append otherwise. -/
def mapSetEntry (m : ExtSelExtMap) (key : Nat) (entry : ExtSelExtMapEntry) :
    ExtSelExtMap :=
  if (List.lookup key m).isSome then
    m.map (fun p => if p.1 == key then (p.1, entry) else p)
  else m ++ [(key, entry)]

/-- `ExtSelExtMapEntry::insert(key, value)`: replace in place when the key
exists, append otherwise (insertion order preserved). -/
def entryInsert (entry : ExtSelExtMapEntry) (key : ComplexSelector)
    (value : Extension) : ExtSelExtMapEntry :=
  if (List.lookup key entry).isSome then
    entry.map (fun p => if p.1 == key then (p.1, value) else p)
  else entry ++ [(key, value)]

/-- `extensionsByExtender[simple].push_back(ext)`: append to the vector,
creating it when absent. -/
def byExtenderPush (m : List (Nat × List Extension)) (key : Nat) (ext : Extension) :
    List (Nat × List Extension) :=
  if (List.lookup key m).isSome then
    m.map (fun p => if p.1 == key then (p.1, p.2 ++ [ext]) else p)
  else m ++ [(key, [ext])]

/-- `mapCopyExts(dest, source)` from `src/src/capi_compiler.hpp:232-249`:
absent keys are inserted whole, present keys have the inner entries inserted
one by one. -/
def mapCopyExts (dest source : ExtSelExtMap) : ExtSelExtMap :=
  source.foldl (fun dest p =>
    match List.lookup p.1 dest with
    | none => dest ++ [p]
    | some _ =>
      p.2.foldl (fun dest q =>
        mapSetEntry dest p.1 (entryInsert (mapGetEntry dest p.1) q.1 q.2)) dest) dest

/-- The per-extender-complex body of `addExtension`'s loop
(`src/src/capi_compiler.hpp:281-317`): an extender already present in
`extensions[target]` is skipped (`continue` — the merge behaviour is left
unimplemented in the source); a new one is inserted, pushed onto
`extensionsByExtender` for every simple of its compounds, given a
`sourceSpecificity` entry where missing (`complex->maxSpecificity()`), and
recorded in `newExtensions` when a rule or existing extensions were found. -/
def addExtensionComplex (ctx : ExtenderCtx) (target : Nat) (isOptional : Bool)
    (mediaQueryContext : Option CssMediaRule) (hasRule hasExistingExtensions : Bool)
    (acc : ExtenderState × ExtSelExtMapEntry) (complex : ComplexSelector) :
    ExtenderState × ExtSelExtMapEntry :=
  let (st, newExtensions) := acc
  let ext : Extension :=
    { Extension.ofComplex complex with
        target := some target, isOptional := isOptional,
        mediaContext := mediaQueryContext }
  let sources := mapGetEntry st.extensions target
  if (List.lookup complex sources).isSome then (st, newExtensions)
  else
    let st := { st with
      extensions := mapSetEntry st.extensions target (entryInsert sources complex ext) }
    let st := complex.elements.foldl (fun st comp =>
      match comp with
      | SelectorComponent.compound simples =>
        simples.foldl (fun st simple =>
          let st := { st with
            extensionsByExtender := byExtenderPush st.extensionsByExtender simple ext }
          if (List.lookup simple st.sourceSpecificity).isSome then st
          else { st with
            sourceSpecificity :=
              st.sourceSpecificity ++ [(simple, ctx.maxSpecificity complex)] }) st
      | SelectorComponent.combinator _ => st) st
    let newExtensions := if hasRule || hasExistingExtensions
      then entryInsert newExtensions complex ext else newExtensions
    (st, newExtensions)

/-- `Extender::addExtension(extender, target, extend, mediaQueryContext)`
from `src/src/capi_compiler.hpp:264-339`.  `extender` is the selector list's
complex selectors; `isOptional` is `extend->isOptional()`.  The
`extendExistingExtensionsFn` parameter stands for the recursive
`extendExistingExtensions` callee (which mutates the state and returns the
additional extensions) and `extendExistingStyleRulesFn` for
`extendExistingStyleRules` (which rewrites the registered rules in place);
both re-enter `extendComplex`/`extendList` and are outside this function's
body.  An empty `newExtensions` returns early with the accumulated state. -/
def addExtension (ctx : ExtenderCtx)
    (extendExistingExtensionsFn : ExtenderState → List Extension → ExtSelExtMap →
      ExtenderState × ExtSelExtMap)
    (extendExistingStyleRulesFn : ExtenderState → List Nat → ExtSelExtMap →
      ExtenderState)
    (st : ExtenderState) (extender : List ComplexSelector) (target : Nat)
    (isOptional : Bool) (mediaQueryContext : Option CssMediaRule) : ExtenderState :=
  let hasRule := (List.lookup target st.selectors).isSome
  let hasExistingExtensions := (List.lookup target st.extensionsByExtender).isSome
  let st := { st with extensions :=
    if (List.lookup target st.extensions).isSome then st.extensions
    else st.extensions ++ [(target, [])] }
  let loopOut := extender.foldl
    (addExtensionComplex ctx target isOptional mediaQueryContext hasRule
      hasExistingExtensions)
    (st, [])
  let st := loopOut.1
  let newExtensions := loopOut.2
  if newExtensions.isEmpty then st
  else
    let newExtensionsByTarget : ExtSelExtMap := [(target, newExtensions)]
    let existing2 := (List.lookup target st.extensionsByExtender).getD []
    let afterClosure :=
      if hasExistingExtensions && !existing2.isEmpty then
        extendExistingExtensionsFn st existing2 newExtensionsByTarget
      else (st, [])
    let st := afterClosure.1
    let newExtensionsByTarget := if !afterClosure.2.isEmpty
      then mapCopyExts newExtensionsByTarget afterClosure.2
      else newExtensionsByTarget
    if hasRule then
      extendExistingStyleRulesFn st ((List.lookup target st.selectors).getD [])
        newExtensionsByTarget
    else st

/-! ### Concrete instances for the trim claims -/

/-- Concrete complex selector `.a.b` (compound of simples 0): dominator of
`c2x` in the C2 counterexample. -/
def c2y : ComplexSelector := ⟨false, [SelectorComponent.compound [0]]⟩

/-- Concrete complex selector `*` (compound of simples 1): retained selector
in the C2 counterexample. -/
def c2z : ComplexSelector := ⟨false, [SelectorComponent.compound [1]]⟩

/-- Concrete complex selector `.a.b.c` (compound of simples 2): the removed
candidate in the C2 counterexample. -/
def c2x : ComplexSelector := ⟨false, [SelectorComponent.compound [2]]⟩

/-- Concrete trim context for the C2 counterexample.  The super-selector
relation holds for `c2z ⊐ c2y ⊐ c2x` and `c2z ⊐ c2x` (transitive, matching
`* ⊐ .a.b ⊐ .a.b.c`), minimum specificities are 10 (`c2y`), 0 (`c2z`), 20
(`c2x`), and only the candidate `c2x` carries a source specificity (10). -/
def c2ctx : ExtenderCtx where
  minSpecificity c :=
    match c.elements with
    | [SelectorComponent.compound [0]] => 10
    | [SelectorComponent.compound [2]] => 20
    | _ => 0
  maxSpecificity _ := 0
  isSuperselectorOf a b :=
    match a.elements, b.elements with
    | [SelectorComponent.compound [0]], [SelectorComponent.compound [2]] => true
    | [SelectorComponent.compound [1]], [SelectorComponent.compound [0]] => true
    | [SelectorComponent.compound [1]], [SelectorComponent.compound [2]] => true
    | _, _ => false
  sourceSpecificity simple := if simple == 2 then some 10 else none
  isPseudoWithSelector _ := false
  extendPseudoFn _ _ _ := []
  unifyComplex _ := []

/-- Concrete complex selector for the C6 failing input. -/
def c6a : ComplexSelector := ⟨false, [SelectorComponent.compound [0]]⟩

/-- Trim context for the C6 failing input (never consulted: both candidates
are originals). -/
def c6ctx : ExtenderCtx where
  minSpecificity _ := 0
  maxSpecificity _ := 0
  isSuperselectorOf _ _ := false
  sourceSpecificity _ := none
  isPseudoWithSelector _ := false
  extendPseudoFn _ _ _ := []
  unifyComplex _ := []

/-! ### Concrete instances for the extendCompound claims -/

/-- Extension map with two target keys (5 and 6) for the C4 claims. -/
def c4extensions : ExtSelExtMap :=
  [(5, [(c2y, Extension.ofComplex c2y)]), (6, [(c2z, Extension.ofComplex c2z)])]

/-- Context for the C4 claims: simple 9 is a pseudo with a nested selector
list whose extension rewrites it to the plain simple 7 (not a target key);
everything else is inert. -/
def c4ctx : ExtenderCtx where
  minSpecificity _ := 0
  maxSpecificity _ := 0
  isSuperselectorOf _ _ := false
  sourceSpecificity _ := none
  isPseudoWithSelector s := s == 9
  extendPseudoFn s _ _ := if s == 9 then [7] else []
  unifyComplex _ := []

/-! ## `SourceMap::serialize_mappings` from `src/source_map.cpp:65-111`

Mappings store 1-based positions; the serializer subtracts 1 from each
(`size_t` arithmetic) and delta-encodes the five fields
`[generated column, file, original line, original column, type]` per
segment, emitting `;` for generated-line advances (resetting the
generated-column base) and `,` between segments of the same line.  The
Base64-VLQ encoder lives in `base64vlq.cpp`, outside the analysed sources,
and is modelled from the spec. -/

/-- A `Position` as stored in a `Mapping`: source file index, line and
column (all 1-based in stored mappings). -/
structure Position where
  file : Nat
  line : Nat
  column : Nat
deriving DecidableEq, Repr

/-- A `Mapping` (`mapping.hpp`): original position, generated position and
the node-type tag. -/
structure Mapping where
  original_position : Position
  generated_position : Position
  type : Nat
deriving DecidableEq, Repr

/-- The `size_t` decrement `x - 1` of `serialize_mappings` (wrapping at
`2^64`). -/
def szSub1 (n : Nat) : Nat := (n + 18446744073709551615) % 18446744073709551616

/-- `static_cast<int>` of a `size_t`: reduce into `[-2^31, 2^31)`. -/
def castInt (n : Nat) : Int :=
  (n % 4294967296 : Int) - (if n % 4294967296 < 2147483648 then 0 else 4294967296)

/-- Modelled from the spec: the Base64 alphabet of the VLQ encoder
(`base64vlq.cpp`, not among the analysed sources). -/
def base64Chars : List Char :=
  "ABCDEFGHIJKLMNOPQRSTUVWXYZabcdefghijklmnopqrstuvwxyz0123456789+/".data

/-- Modelled from the spec: the VLQ sign fold — the sign goes to the least
significant bit. -/
def toVlqSigned (v : Int) : Nat :=
  if v < 0 then (2 * (-v) + 1).toNat else (2 * v).toNat

/-- Modelled from the spec: little-endian base-32 digits of a natural
number, at least one digit.  The fuel argument makes the recursion
structural; `fuel ≥ n` always suffices since `n / 32 < n` for `n > 0`. -/
def vlqDigitsGo : Nat → Nat → List Nat
  | 0, n => [n % 32]
  | fuel + 1, n => if n / 32 = 0 then [n % 32] else (n % 32) :: vlqDigitsGo fuel (n / 32)

/-- Modelled from the spec: little-endian base-32 digits of a natural
number, at least one digit. -/
def vlqDigits (n : Nat) : List Nat := vlqDigitsGo n n

/-- Modelled from the spec: set the continuation bit (32) on every 5-bit
group except the last. -/
def vlqAttachContinuation : List Nat → List Nat
  | [] => []
  | [d] => [d]
  | d :: rest => (d + 32) :: vlqAttachContinuation rest

/-- Modelled from the spec: `Base64VLQ::encode` — sign-fold, split into
5-bit groups, mark continuations, map through the alphabet. -/
def encodeVLQ (v : Int) : List Char :=
  (vlqAttachContinuation (vlqDigits (toVlqSigned v))).map
    (fun d => base64Chars.getD d '?')

/-- The six `previous_*` locals of `serialize_mappings`
(`src/source_map.cpp:68-73`), all initialised to 0. -/
structure SerState where
  previous_generated_line : Nat
  previous_generated_column : Nat
  previous_original_line : Nat
  previous_original_column : Nat
  previous_original_file : Nat
  previous_original_type : Nat
deriving DecidableEq, Repr

/-- The loop of `serialize_mappings` (`src/source_map.cpp:74-108`) with the
`i > 0` flag made explicit (`notFirst`): a changed generated line resets the
generated-column base and, when the line advanced, emits that many `;` and
updates the line base (a *decrease* emits no separator at all); an unchanged
line separates segments with `,` except before the first; then the five
fields are emitted as Base64-VLQ deltas of `static_cast<int>` values and the
bases updated. -/
def serialize_mappings_go : List Mapping → Bool → SerState → List Char
  | [], _, _ => []
  | m :: rest, notFirst, st =>
    let generated_line := szSub1 m.generated_position.line
    let generated_column := szSub1 m.generated_position.column
    let original_line := szSub1 m.original_position.line
    let original_column := szSub1 m.original_position.column
    let original_file := szSub1 m.original_position.file
    let original_type := m.type
    let sepSt : List Char × SerState :=
      if generated_line ≠ st.previous_generated_line then
        let st := { st with previous_generated_column := 0 }
        if generated_line > st.previous_generated_line then
          (List.replicate (generated_line - st.previous_generated_line) ';',
           { st with previous_generated_line := generated_line })
        else ([], st)
      else if notFirst then ([','], st) else ([], st)
    let st := sepSt.2
    sepSt.1
      ++ encodeVLQ (castInt generated_column - castInt st.previous_generated_column)
      ++ encodeVLQ (castInt original_file - castInt st.previous_original_file)
      ++ encodeVLQ (castInt original_line - castInt st.previous_original_line)
      ++ encodeVLQ (castInt original_column - castInt st.previous_original_column)
      ++ encodeVLQ (castInt original_type - castInt st.previous_original_type)
      ++ serialize_mappings_go rest true
          { st with
              previous_generated_column := generated_column,
              previous_original_line := original_line,
              previous_original_column := original_column,
              previous_original_file := original_file,
              previous_original_type := original_type }

/-- `SourceMap::serialize_mappings()` from `src/source_map.cpp:65-111`. -/
def serialize_mappings (mappings : List Mapping) : List Char :=
  serialize_mappings_go mappings false ⟨0, 0, 0, 0, 0, 0⟩

/-- The serialization the C8 claim describes, stated from the claim's words
for comparison with `serialize_mappings`: identical separators and deltas,
but segments are "4- or 5-tuples `[genCol, srcIdx, origLine, origCol,
nameIdx?]`" — and since the generator's `names` array is always empty and a
`Mapping` carries no name index, the optional fifth field is never present,
so every segment is the 4-tuple without the type field. -/
def serializeMappingsClaimGo : List Mapping → Bool → SerState → List Char
  | [], _, _ => []
  | m :: rest, notFirst, st =>
    let generated_line := szSub1 m.generated_position.line
    let generated_column := szSub1 m.generated_position.column
    let original_line := szSub1 m.original_position.line
    let original_column := szSub1 m.original_position.column
    let original_file := szSub1 m.original_position.file
    let sepSt : List Char × SerState :=
      if generated_line ≠ st.previous_generated_line then
        let st := { st with previous_generated_column := 0 }
        if generated_line > st.previous_generated_line then
          (List.replicate (generated_line - st.previous_generated_line) ';',
           { st with previous_generated_line := generated_line })
        else ([], st)
      else if notFirst then ([','], st) else ([], st)
    let st := sepSt.2
    sepSt.1
      ++ encodeVLQ (castInt generated_column - castInt st.previous_generated_column)
      ++ encodeVLQ (castInt original_file - castInt st.previous_original_file)
      ++ encodeVLQ (castInt original_line - castInt st.previous_original_line)
      ++ encodeVLQ (castInt original_column - castInt st.previous_original_column)
      ++ serializeMappingsClaimGo rest true
          { st with
              previous_generated_column := generated_column,
              previous_original_line := original_line,
              previous_original_column := original_column,
              previous_original_file := original_file }

/-- Top level of the claim-described serialization (see
`serializeMappingsClaimGo`). -/
def serializeMappingsClaim (mappings : List Mapping) : List Char :=
  serializeMappingsClaimGo mappings false ⟨0, 0, 0, 0, 0, 0⟩

/-! ### A Base64-VLQ decoder, for the C8 round-trip -/

/-- Index of a character in the Base64 alphabet. -/
def base64Index (c : Char) : Option Nat :=
  base64Chars.findIdx? (fun x => x == c)

/-- Parse one VLQ value's 5-bit groups (continuation bit 32). -/
def parseVLQDigits : List Char → Option (List Nat × List Char)
  | [] => none
  | c :: rest =>
    match base64Index c with
    | none => none
    | some d =>
      if d < 32 then some ([d], rest)
      else
        match parseVLQDigits rest with
        | some (ds, r) => some ((d - 32) :: ds, r)
        | none => none

/-- Value of little-endian base-32 digits. -/
def digitsToNat : List Nat → Nat
  | [] => 0
  | d :: ds => d + 32 * digitsToNat ds

/-- Undo the VLQ sign fold. -/
def fromVlqSigned (n : Nat) : Int :=
  if n % 2 = 1 then -(n / 2 : Int) else (n / 2 : Int)

/-- Parse one Base64-VLQ value. -/
def parseVLQ (s : List Char) : Option (Int × List Char) :=
  match parseVLQDigits s with
  | some (ds, rest) => some (fromVlqSigned (digitsToNat ds), rest)
  | none => none

/-- Parse five consecutive Base64-VLQ values. -/
def parse5 (s : List Char) :
    Option (Int × Int × Int × Int × Int × List Char) :=
  match parseVLQ s with
  | none => none
  | some (d1, r1) =>
    match parseVLQ r1 with
    | none => none
    | some (d2, r2) =>
      match parseVLQ r2 with
      | none => none
      | some (d3, r3) =>
        match parseVLQ r3 with
        | none => none
        | some (d4, r4) =>
          match parseVLQ r4 with
          | none => none
          | some (d5, r5) => some (d1, d2, d3, d4, d5, r5)

/-- Sequential decoder for a `mappings` string: before every segment except
the first, consume either a run of `;` (advancing the generated line and
resetting the generated-column base to 0) or one `,`; then decode the
segment's five deltas against the running absolute values and record
`(generated line, generated column, source index, original line, original
column, type)`. -/
def decodeGo : Nat → List Char → Bool → Nat → Int → Int → Int → Int → Int →
    Option (List (Nat × Int × Int × Int × Int × Int))
  | 0, _, _, _, _, _, _, _, _ => none
  | fuel + 1, s, first, lineNo, genCol, file, origLine, origCol, typ =>
    if s.isEmpty then some []
    else
      let semis := s.takeWhile (fun c => c == ';')
      let afterSep : Option (Nat × Int × List Char) :=
        if !semis.isEmpty then
          some (lineNo + semis.length, 0, s.dropWhile (fun c => c == ';'))
        else if first then some (lineNo, genCol, s)
        else
          match s with
          | ',' :: r => some (lineNo, genCol, r)
          | _ => none
      match afterSep with
      | none => none
      | some (lineNo, genCol, s) =>
        match parse5 s with
        | none => none
        | some (d1, d2, d3, d4, d5, rest) =>
          let genCol := genCol + d1
          let file := file + d2
          let origLine := origLine + d3
          let origCol := origCol + d4
          let typ := typ + d5
          match decodeGo fuel rest false lineNo genCol file origLine origCol typ with
          | none => none
          | some tl => some ((lineNo, genCol, file, origLine, origCol, typ) :: tl)

/-- Decode a whole `mappings` string from the initial state. -/
def decodeMappings (s : List Char) : Option (List (Nat × Int × Int × Int × Int × Int)) :=
  decodeGo (s.length + 1) s true 0 0 0 0 0 0

/-- The absolute values a decoded segment should reproduce for a mapping:
all six stored fields, 0-based. -/
def expectedSeg (m : Mapping) : Nat × Int × Int × Int × Int × Int :=
  (m.generated_position.line - 1,
   ((m.generated_position.column - 1 : Nat) : Int),
   ((m.original_position.file - 1 : Nat) : Int),
   ((m.original_position.line - 1 : Nat) : Int),
   ((m.original_position.column - 1 : Nat) : Int),
   (m.type : Int))

/-- Field bounds under which the `size_t` subtractions and `int` casts of
`serialize_mappings` are exact: 1-based positions below `2^31`, type below
`2^31`. -/
def mappingBounds (m : Mapping) : Prop :=
  1 ≤ m.generated_position.line ∧ m.generated_position.line < 2147483648 ∧
  1 ≤ m.generated_position.column ∧ m.generated_position.column < 2147483648 ∧
  1 ≤ m.original_position.file ∧ m.original_position.file < 2147483648 ∧
  1 ≤ m.original_position.line ∧ m.original_position.line < 2147483648 ∧
  1 ≤ m.original_position.column ∧ m.original_position.column < 2147483648 ∧
  m.type < 2147483648

/-- The generated lines (0-based) are non-decreasing from a given base —
the regime in which the `;`-emission of `serialize_mappings` is faithful. -/
def linesChainFrom : Nat → List Mapping → Prop
  | _, [] => True
  | p, m :: rest =>
    p ≤ m.generated_position.line - 1 ∧
    linesChainFrom (m.generated_position.line - 1) rest

/-! ## `Inspect::operator()(Number*)` from `src/inspect.cpp:382-415`

The number's double value is formatted by `stringstream` (`ss << fixed` at
the configured precision); that floating-point formatter is outside the
model, so the formatted digit string `d0` enters as a parameter (for
integer-valued numbers `fixedFormatNat` below reproduces it exactly).  The
unit rendering `n->unit()` (from `ast.cpp`, outside the analysed sources)
likewise enters as the parameter `unit`.  `error(...)` (declared in
`error_handling.hpp`) raises a fatal `InvalidValue`-kind error carrying the
message — modelled as `Except.error` of the message string. -/

/-- The trailing-zero loop of `src/inspect.cpp:392-394`: remove trailing
`'0'` characters.  When the string consists solely of zeros the C++ empties
it and then reads `d[SIZE_MAX]` out of bounds (undefined behaviour); the
model stops with the empty string there. -/
def stripTrailingZeros (d : List Char) : List Char :=
  (d.reverse.dropWhile (fun c => c == '0')).reverse

/-- `if (d[d.length()-1] == '.') d.resize(d.length()-1)` from
`src/inspect.cpp:395` (on the empty string the C++ read is out of bounds;
the model leaves it unchanged). -/
def dropTrailingDot (d : List Char) : List Char :=
  if d.getLastD 'x' == '.' then d.dropLast else d

/-- The unit test of `src/inspect.cpp:396-400`: more than one numerator
unit, any denominator unit, or a first numerator unit containing `'/'` or
`'*'`. -/
def numberUnitsInvalid (numUnits denUnits : List (List Char)) : Bool :=
  numUnits.length > 1 || denUnits.length > 0 ||
  (numUnits.length != 0 && (numUnits.getD 0 []).contains '/') ||
  (numUnits.length != 0 && (numUnits.getD 0 []).contains '*')

/-- `Inspect::operator()(Number*)` from `src/inspect.cpp:382-415`:
`d0` is the fixed-notation rendering of `n->value()` at the configured
precision, `valueNonzero` is `n->value() != 0`, `zeroFlag` is `n->zero()`,
and `unit` is the rendering of `n->unit()`.  Trailing zeros are stripped and
a trailing dot removed; invalid units raise the error; outside declaration
lists (for non-`zero()` numbers) the leading zero of `-0.x`/`0.x` is
dropped; `-0` collapses to `0`; a `0` from a non-zero value becomes `0.0`;
the number and the unit are appended to the output buffer. -/
def inspectNumber (d0 : List Char) (valueNonzero : Bool)
    (numUnits denUnits : List (List Char)) (unit : List Char)
    (zeroFlag : Bool) (inDeclarationList : Bool) :
    Except (List Char) (List Char) :=
  let d := dropTrailingDot (stripTrailingZeros d0)
  if numberUnitsInvalid numUnits denUnits then
    .error (d ++ unit ++ (" isn't a valid CSS value.".data))
  else
    let d := if !zeroFlag && !inDeclarationList then
        let d := if d.take 3 == ['-', '0', '.'] then d.take 1 ++ d.drop 2 else d
        if d.take 2 == ['0', '.'] then d.drop 1 else d
      else d
    let d := if d == ['-', '0'] then d.drop 1 else d
    let d := if d == ['0'] && valueNonzero then ['0', '.', '0'] else d
    .ok (d ++ unit)

/-- Modelled from the spec: the `stringstream` fixed-notation formatter for
an integer-valued number at precision `p` (`ss.precision(p); ss << fixed`)
— the decimal digits of the integer followed, when `p > 0`, by a decimal
point and `p` fractional zeros.  The formatter itself is not among the
analysed sources, and on non-integer doubles it is floating point; integer
values format exactly. -/
def fixedFormatNat (v : Nat) (p : Nat) : List Char :=
  (Nat.toDigits 10 v) ++ (if p > 0 then '.' :: List.replicate p '0' else [])

/-! ### Concrete instances for the addExtension claim -/

/-- Trivial loop-closure callback (`extendExistingExtensions`) for the C7
witness: no additional extensions, state untouched. -/
def c7closure : ExtenderState → List Extension → ExtSelExtMap →
    ExtenderState × ExtSelExtMap :=
  fun st _ _ => (st, [])

/-- Trivial style-rule-rewrite callback (`extendExistingStyleRules`) for the
C7 witness: state untouched. -/
def c7rules : ExtenderState → List Nat → ExtSelExtMap → ExtenderState :=
  fun st _ _ => st

/-- The empty `Extender` state. -/
def c7state0 : ExtenderState := ⟨[], [], [], [], []⟩

/-- The state after the first `addExtension` call of the C7 witness:
extender `[c2y]`, target 5, non-optional, no media context. -/
def c7state1 : ExtenderState :=
  addExtension c4ctx c7closure c7rules c7state0 [c2y] 5 false none

/-! # Theorems -/

/-! ## C10 — `unquote (quote s q) = s` -/

/-- Scanning the escaped body produced by `quote` appends exactly the original
characters: the backslash inserted before each embedded quote mark is the one
removed by the `unquote` loop. -/
theorem unquoteLoop_quoteEsc (q : Char) (hq : q ≠ '\\') :
    ∀ (s : List Char) (prev : Char) (t : List Char),
      unquoteLoop q prev (quoteEsc q s) t = t ++ s := by
  have hbq : ('\\' == q) = false := by
    simp only [beq_eq_false_iff_ne]
    exact fun h => hq h.symm
  intro s
  induction s with
  | nil => intro prev t; simp [quoteEsc, unquoteLoop]
  | cons c rest ih =>
    intro prev t
    by_cases hc : (c == q) = true <;>
      simp [quoteEsc, unquoteLoop, hc, hbq, ih, List.dropLast_concat]

/-- The escaped body of a nonempty string is nonempty. -/
theorem quoteEsc_ne_nil (q c : Char) (rest : List Char) :
    quoteEsc q (c :: rest) ≠ [] := by
  by_cases hc : (c == q) = true <;> simp [quoteEsc, hc]

/-- `getLastD` of a list ending in `[a]` is `a`. -/
theorem getLastD_append_singleton (xs : List Char) (a d : Char) :
    (xs ++ [a]).getLastD d = a := by
  induction xs generalizing d with
  | nil => simp
  | cons z zs ih => rw [List.cons_append, List.getLastD_cons]; exact ih z

/-- C10: quoting then unquoting is the identity on strings that are empty or
do not start with a quote character, for either quote mark: `quote` wraps the
string in the quote mark and backslash-escapes embedded copies of it, and
`unquote` strips the wrapping pair and removes exactly those backslashes. -/
theorem unquote_quote (s : List Char) (q : Char)
    (hs : s = [] ∨ (s.head? ≠ some '"' ∧ s.head? ≠ some '\''))
    (hq : q = '"' ∨ q = '\'') :
    unquote (quote s q) = s := by
  have hqnul : (q == Char.ofNat 0) = false := by
    rcases hq with h | h <;> subst h <;> decide
  have hqbs : q ≠ '\\' := by
    rcases hq with h | h <;> subst h <;> decide
  cases s with
  | nil =>
    rcases hq with h | h <;> subst h <;> decide
  | cons c rest =>
    rcases hs with h | ⟨h1, h2⟩
    · exact absurd h (by simp)
    have hc1 : (c == '"') = false := by
      simp only [List.head?_cons, ne_eq, Option.some_inj] at h1
      simpa using h1
    have hc2 : (c == '\'') = false := by
      simp only [List.head?_cons, ne_eq, Option.some_inj] at h2
      simpa using h2
    have hquote : quote (c :: rest) q = q :: (quoteEsc q (c :: rest) ++ [q]) := by
      simp [quote, hqnul, hc1, hc2]
    rw [hquote]
    obtain ⟨y, ys, hys⟩ : ∃ y ys, quoteEsc q (c :: rest) = y :: ys := by
      cases hqe : quoteEsc q (c :: rest) with
      | nil => exact absurd hqe (quoteEsc_ne_nil q c rest)
      | cons y ys => exact ⟨y, ys, rfl⟩
    rw [hys]
    have hlast : ((y :: (ys ++ [q])).getLastD q) = q := by
      rw [List.getLastD_cons]; exact getLastD_append_singleton ys q y
    have hdrop : ((y :: (ys ++ [q])).dropLast) = y :: ys := by
      have : (y :: (ys ++ [q])) = (y :: ys) ++ [q] := by simp
      rw [this, List.dropLast_concat]
    rcases hq with h | h <;> subst h
    · simp only [unquote, List.cons_append, hlast, beq_self_eq_true, Bool.and_self, if_true]
      rw [hdrop, ← hys, unquoteLoop_quoteEsc _ hqbs]
      simp
    · have hne : ('\'' == '"') = false := by decide
      simp only [unquote, List.cons_append, hlast, beq_self_eq_true, Bool.and_self, hne,
        Bool.false_and, Bool.false_eq_true, if_false, if_true]
      rw [hdrop, ← hys, unquoteLoop_quoteEsc _ hqbs]
      simp

/-- Witness for C10 at a concrete input: `quote "a\"b" '"'` escapes the inner
quote and `unquote` restores the original. -/
theorem unquote_quote_witness :
    unquote (quote ['a', '"', 'b'] '"') = ['a', '"', 'b'] :=
  unquote_quote ['a', '"', 'b'] '"' (Or.inr (by decide)) (Or.inl rfl)

/-! ## C5 — `assertCompatibleMediaContext` -/

/-- C5 counterexample: with a null extension `mediaContext` and a non-null
rule context the two contexts are not value-equal, so the claim's "raises if
and only if not equal" predicts `ExtendAcrossMedia`; the code returns without
error, because its first test returns whenever the extension's own context is
null. -/
theorem assertCompatibleMediaContext_c5_counterexample :
    assertCompatibleMediaContext none (some ⟨0, [0]⟩) = .ok () ∧
      objEqualityMediaRule (some ⟨0, [0]⟩) none = false :=
  ⟨rfl, rfl⟩

/-- C5 (amended): `assertCompatibleMediaContext` raises `ExtendAcrossMedia`
exactly when the extension's `mediaContext` is non-null, the rule context is
not both non-null and pointer-identical in its block, and the two contexts
are not value-equal.  In particular a null extension context never raises,
even under a non-null rule context. -/
theorem assertCompatibleMediaContext_c5_amended
    (mediaContext mediaQueryContext : Option CssMediaRule) :
    assertCompatibleMediaContext mediaContext mediaQueryContext = .error ⟨⟩ ↔
      (mediaContext.isSome = true ∧
       (mediaQueryContext.isSome && objPtrEqualityBlocks mediaContext mediaQueryContext) = false ∧
       objEqualityMediaRule mediaQueryContext mediaContext = false) := by
  unfold assertCompatibleMediaContext
  rcases mediaContext with _ | mc <;> rcases mediaQueryContext with _ | mq
  all_goals simp [objPtrEqualityBlocks, objEqualityMediaRule]
  all_goals split_ifs <;> simp_all

/-! ## C1 — the unreachable guards of `extendPseudoComplex` -/

/-- C1: both multi-equality guards in `extendPseudoComplex` are unsatisfiable
— no string equals `"matches"`, `"any"`, `"current"`, `"nth-child"` and
`"nth-last-child"` at once, nor `"has"`, `"host"`, `"host-context"` and
`"slotted"` at once — so for a pseudo selector normalized to any of those
names wrapping a single inner pseudo-with-selector the function falls through
to the final `return {}`. -/
theorem extendPseudoComplex_unreachable_branches
    (innerPseudo : PPseudo) (innerSel : PSelectorList) (pseudo : PPseudo)
    (mctx : Option CssMediaRule)
    (hsel : innerPseudo.selector = some innerSel)
    (hname : pseudo.normalized ∈ (["matches", "any", "current", "nth-child",
        "nth-last-child", "has", "host", "host-context", "slotted"] : List String)) :
    (∀ s : String, ¬(s = "matches" ∧ s = "any" ∧ s = "current" ∧
        s = "nth-child" ∧ s = "nth-last-child")) ∧
    (∀ s : String, ¬(s = "has" ∧ s = "host" ∧ s = "host-context" ∧ s = "slotted")) ∧
    extendPseudoComplex (PComplex.mk [PComponent.compound [PSimple.pseudo innerPseudo]])
      pseudo mctx = [] := by
  refine ⟨?_, ?_, ?_⟩
  · rintro s ⟨h1, h2, -⟩
    rw [h1] at h2
    exact absurd h2 (by decide)
  · rintro s ⟨h1, h2, -⟩
    rw [h1] at h2
    exact absurd h2 (by decide)
  · obtain ⟨n, nz, arg, sel⟩ := innerPseudo
    simp only [PPseudo.selector] at hsel
    subst hsel
    simp only [List.mem_cons, List.mem_singleton, List.not_mem_nil, or_false] at hname
    rcases hname with h | h | h | h | h | h | h | h | h <;>
      simp [extendPseudoComplex, PComplex.elements, PPseudo.selector, h]

/-- Witness for C1 at a concrete input: a `:matches` pseudo wrapping a single
inner pseudo-with-selector yields the empty list. -/
theorem extendPseudoComplex_unreachable_branches_witness :
    extendPseudoComplex
      (PComplex.mk [PComponent.compound [PSimple.pseudo
        (PPseudo.mk ":matches" "matches" none (some (PSelectorList.mk [])))]])
      (PPseudo.mk ":matches" "matches" none none) none = [] :=
  (extendPseudoComplex_unreachable_branches
    (PPseudo.mk ":matches" "matches" none (some (PSelectorList.mk [])))
    (PSelectorList.mk [])
    (PPseudo.mk ":matches" "matches" none none) none rfl
    (List.mem_cons_self _ _)).2.2

/-! ## C2 — the removal condition of `trim` -/

/-- C2 counterexample.  Candidates `[c2y, c2z, c2x]`, none of them original.
`c2x` is removed — it is dominated by the *earlier input candidate* `c2y`
(minimum specificity 10 ≥ its source specificity 10, and a super-selector) —
yet `c2y` itself is then removed (dominated by the retained `c2z`), and the
only retained selector `c2z` has minimum specificity 0 < 10, so no *retained*
selector dominates `c2x` in the claim's sense.  The claim's "removed exactly
when some retained super-selector of equal-or-higher specificity exists" is
therefore false at this input. -/
theorem trim_c2_counterexample :
    trim c2ctx [c2y, c2z, c2x] (fun _ => false) 1 = some [c2z] ∧
    c2x ∉ [c2z] ∧
    (∀ kept ∈ [c2z],
      ¬(trimMaxSpecificity c2ctx c2x ≤ c2ctx.minSpecificity kept ∧
        c2ctx.isSuperselectorOf kept c2x = true)) := by
  refine ⟨by decide, by decide, by decide⟩

/-- One pass of `trim` agrees with the amended-claim recursion
`trimAmendedSpec`, provided no candidate that is a member of `existing`
occurs twice in the input (under that hypothesis the duplicate-original check
never fires, so no `goto redo` happens).  The invariant carried through the
scan: every kept entry that is a member of `existing` occurs among the
already-processed input candidates `selectors.drop k`. -/
theorem trimPass_eq_amendedSpec (ctx : ExtenderCtx) (existing : ComplexSelector → Bool)
    (selectors : List ComplexSelector)
    (hnodup : selectors.Pairwise (fun a b => a = b → existing a = false)) :
    ∀ (k : Nat), k ≤ selectors.length →
      ∀ (result : List ComplexSelector) (numOriginals : Nat),
      (∀ r ∈ result, existing r = true → r ∈ selectors.drop k) →
      trimPass ctx existing selectors k result numOriginals =
        Sum.inr (trimAmendedSpec ctx existing selectors k result) := by
  intro k
  induction k with
  | zero => intro _ result numOr _; rfl
  | succ k ih =>
    intro hk result numOr hres
    have hklt : k < selectors.length := by omega
    have hgetD : selectors.getD k ⟨false, []⟩ = selectors[k] := by
      simp [List.getD_eq_getElem?_getD, List.getElem?_eq_getElem hklt]
    have hdropk : selectors.drop k = selectors[k] :: selectors.drop (k + 1) :=
      List.drop_eq_getElem_cons hklt
    by_cases hex : existing (selectors.getD k ⟨false, []⟩) = true
    · -- original branch: the duplicate check cannot fire
      have hfind : (result.take numOr).findIdx?
          (fun r => r == selectors.getD k ⟨false, []⟩) = none := by
        rw [List.findIdx?_eq_none_iff]
        intro r hrmem
        by_contra hbne
        have hreq : r = selectors.getD k ⟨false, []⟩ := by
          simpa using hbne
        have hrres : r ∈ result := List.take_subset _ _ hrmem
        have hexr : existing r = true := by rw [hreq]; exact hex
        have hrdrop : r ∈ selectors.drop (k + 1) := hres r hrres hexr
        obtain ⟨m, hm, hrm⟩ := List.mem_iff_getElem.mp hrdrop
        rw [List.length_drop] at hm
        have hmlt : k + 1 + m < selectors.length := by omega
        rw [List.getElem_drop] at hrm
        have hpw := List.pairwise_iff_getElem.mp hnodup k (k + 1 + m) hklt hmlt (by omega)
        have heq2 : selectors[k] = selectors[k + 1 + m] := by
          rw [hrm, hreq, hgetD]
        have hfalse := hpw heq2
        rw [← hgetD] at hfalse
        rw [hfalse] at hex
        exact Bool.false_ne_true hex
      rw [trimPass, trimAmendedSpec]
      simp only [hex, if_true, hfind]
      apply ih (by omega)
      intro r hr hexr
      rcases List.mem_cons.mp hr with rfl | hr'
      · rw [hdropk, hgetD]; exact List.mem_cons_self _ _
      · exact List.drop_subset_drop_left _ (by omega) (hres r hr' hexr)
    · -- non-original branch: the two domination tests combine into the `||`
      rw [trimPass, trimAmendedSpec]
      simp only [hex, if_false, Bool.false_eq_true]
      have hrec : ∀ res', (∀ r ∈ res', existing r = true → r ∈ selectors.drop k) →
          trimPass ctx existing selectors k res' numOr =
            Sum.inr (trimAmendedSpec ctx existing selectors k res') :=
        fun res' h => ih (by omega) res' numOr h
      have hresk : ∀ r ∈ result, existing r = true → r ∈ selectors.drop k :=
        fun r hr hexr => List.drop_subset_drop_left _ (by omega) (hres r hr hexr)
      have hreskc : ∀ r ∈ (selectors.getD k ⟨false, []⟩) :: result,
          existing r = true → r ∈ selectors.drop k := by
        intro r hr hexr
        rcases List.mem_cons.mp hr with rfl | hr'
        · rw [hdropk, hgetD]; exact List.mem_cons_self _ _
        · exact hresk r hr' hexr
      cases hb1 : result.any (fun complex2 => dontTrimComplex ctx complex2
          (selectors.getD k ⟨false, []⟩)
          (trimMaxSpecificity ctx (selectors.getD k ⟨false, []⟩))) <;>
        cases hb2 : (selectors.take k).any (fun complex2 => dontTrimComplex ctx complex2
            (selectors.getD k ⟨false, []⟩)
            (trimMaxSpecificity ctx (selectors.getD k ⟨false, []⟩))) <;>
        simp only [hb1, hb2, Bool.false_or, Bool.true_or, Bool.or_self, if_true, if_false,
          Bool.false_eq_true, Bool.true_eq_false]
      · exact hrec _ hreskc
      · exact hrec _ hresk
      · exact hrec _ hresk
      · exact hrec _ hresk

/-- C2 (amended): for candidate lists of at most 100 selectors in which no
member of `originals` occurs twice, `trim` terminates on its first pass and
removes a candidate exactly as the amended claim states: a member of
`originals` is always kept, and any other candidate is removed precisely
when, at the moment the reverse scan examines it, some already-kept selector
or some earlier input candidate (whether or not itself eventually retained)
has minimum specificity at least the candidate's maximum source specificity
and is a super-selector of it — the behaviour captured by
`trimAmendedSpec`. -/
theorem trim_c2_amended (ctx : ExtenderCtx) (selectors : List ComplexSelector)
    (existing : ComplexSelector → Bool) (fuel : Nat)
    (hlen : selectors.length ≤ 100) (hfuel : 0 < fuel)
    (hnodup : selectors.Pairwise (fun a b => a = b → existing a = false)) :
    trim ctx selectors existing fuel =
      some (trimAmendedSpec ctx existing selectors selectors.length []) := by
  obtain ⟨f, rfl⟩ : ∃ f, fuel = f + 1 := ⟨fuel - 1, by omega⟩
  unfold trim
  rw [if_neg (by omega)]
  rw [trimGo]
  rw [trimPass_eq_amendedSpec ctx existing selectors hnodup selectors.length le_rfl [] 0
    (by intro r hr _; exact absurd hr (List.not_mem_nil r))]

/-- Witness for C2 (amended) at a concrete input: a single original candidate
is kept. -/
theorem trim_c2_amended_witness :
    trim c2ctx [c2y] (fun c => c == c2y) 1 =
      some (trimAmendedSpec c2ctx (fun c => c == c2y) [c2y] [c2y].length []) :=
  trim_c2_amended c2ctx [c2y] (fun c => c == c2y) 1 (by decide) (by decide)
    (List.pairwise_singleton _ _)

/-! ## C6 — originals, duplicates, and the `goto redo` loop -/

/-- From the repeating state (`result = [c6a]`, `numOriginals = 1`) the
duplicate-original check fires on the very first index of every pass, the
rotation of the one-element slice is the identity, and `goto redo` restarts
the pass in the same state: no amount of fuel suffices. -/
theorem trimGo_c6_stuck (fuel : Nat) :
    trimGo c6ctx (fun c => c == c6a) [c6a, c6a] fuel [c6a] 1 = none := by
  induction fuel with
  | zero => rfl
  | succ f ih =>
    have step : trimGo c6ctx (fun c => c == c6a) [c6a, c6a] (f + 1) [c6a] 1 =
        trimGo c6ctx (fun c => c == c6a) [c6a, c6a] f [c6a] 1 := rfl
    rw [step]
    exact ih

/-- C6: on the failing input — the candidate list `[c6a, c6a]` whose element
is an original — the C++ `trim` never terminates: the first pass keeps the
first copy, the duplicate check fires on the second, and `goto redo` restarts
the whole scan (instead of continuing with the next index as dart-sass's
labelled `continue` does), where the duplicate check fires again, forever.
In the fuel model: every fuel gives `none`. -/
theorem trim_c6_duplicate_original_diverges (fuel : Nat) :
    trim c6ctx [c6a, c6a] (fun c => c == c6a) fuel = none := by
  unfold trim
  rw [if_neg (by decide)]
  cases fuel with
  | zero => rfl
  | succ f =>
    have step : trimGo c6ctx (fun c => c == c6a) [c6a, c6a] (f + 1) [] 0 =
        trimGo c6ctx (fun c => c == c6a) [c6a, c6a] f [c6a] 1 := rfl
    rw [step]
    exact trimGo_c6_stuck f

/-! ## C3 — `extendList` with no matching extension -/

/-- C3: if `extendComplex` returns the empty list for every complex selector
of `list`, then `extendList` returns `list` itself — the `extended`
accumulator stays empty through the whole loop, so neither the new list
allocation nor `trim` is reached. -/
theorem extendList_no_match (ctx : ExtenderCtx) (originals : ComplexSelector → Bool)
    (extendComplexFn : ComplexSelector → List ComplexSelector)
    (list : List ComplexSelector) (fuel : Nat)
    (h : ∀ c ∈ list, extendComplexFn c = []) :
    extendList ctx originals extendComplexFn list fuel = some list := by
  have key : ∀ idxs : List Nat, (∀ i ∈ idxs, i < list.length) →
      idxs.foldl (extendListStep extendComplexFn list) [] = [] := by
    intro idxs
    induction idxs with
    | nil => intro _; rfl
    | cons j rest ih =>
      intro hidx
      have hj : j < list.length := hidx j (List.mem_cons_self _ _)
      have hget : list.getD j ⟨false, []⟩ = list[j] := by
        rw [List.getD_eq_getElem?_getD, List.getElem?_eq_getElem hj]
        rfl
      rw [List.foldl_cons]
      have hstep : extendListStep extendComplexFn list [] j = [] := by
        simp only [extendListStep, hget, h list[j] (List.getElem_mem hj)]
        simp
      rw [hstep]
      exact ih (fun i hi => hidx i (List.mem_cons_of_mem _ hi))
  unfold extendList
  rw [key (List.range list.length) (fun i hi => List.mem_range.mp hi)]
  rfl

/-- Witness for C3 at a concrete input: a two-element list under an extension
function that never matches comes back unchanged. -/
theorem extendList_no_match_witness :
    extendList c2ctx (fun _ => false) (fun _ => []) [c2y, c2z] 1 = some [c2y, c2z] :=
  extendList_no_match c2ctx (fun _ => false) (fun _ => []) [c2y, c2z] 1 (fun _ _ => rfl)

/-! ## C4 — the all-targets check of `extendCompound` -/

/-- C4 counterexample: in `TARGETS` mode with a two-key extension map, the
compound `[9]` (a pseudo whose nested selector list is rewritten to the
non-target simple 7) produces a non-empty result even though the set of used
targets is empty and thus differs from the key set: the emptiness guard is
skipped because the C++ only returns `{}` when `targetsUsed` is non-empty
(`if (!targetsUsed->empty()) return {};`). -/
theorem extendCompound_c4_counterexample :
    extendCompound c4ctx ExtendMode.targets [9] c4extensions none false =
      .ok [wrapInComplexSimple 7] ∧
    (extendCompoundOptions c4ctx ExtendMode.targets [9] c4extensions none).2 = some [] ∧
    c4extensions.length = 2 :=
  ⟨rfl, rfl, rfl⟩

/-- C4 (amended): outside `NORMAL` mode, when the targets-used set is tracked
(more than one target key) and ends up non-empty but not covering every key,
`extendCompound` returns the empty list; when no target was used at all, or
the map has a single key (so no tracking happens), the result may be
non-empty (see the counterexample). -/
theorem extendCompound_c4_amended (ctx : ExtenderCtx) (mode : ExtendMode)
    (compound : List Nat) (extensions : ExtSelExtMap)
    (mediaQueryContext : Option CssMediaRule) (inOriginal : Bool) (used : List Nat)
    (htu : (extendCompoundOptions ctx mode compound extensions mediaQueryContext).2 =
      some used)
    (hne : used ≠ []) (hdiff : used.length ≠ extensions.length) :
    extendCompound ctx mode compound extensions mediaQueryContext inOriginal = .ok [] := by
  unfold extendCompound
  simp only [htu]
  by_cases hopt :
      (extendCompoundOptions ctx mode compound extensions mediaQueryContext).1.isEmpty = true
  · simp [hopt]
  · have h1 : (used.length != extensions.length) = true := by
      simpa using hdiff
    have h2 : (!used.isEmpty) = true := by
      simp only [Bool.not_eq_true', List.isEmpty_eq_false_iff_exists_mem]
      cases used with
      | nil => exact absurd rfl hne
      | cons u us => exact ⟨u, List.mem_cons_self _ _⟩
    simp [hopt, h1, h2]

/-- Witness for C4 (amended) at a concrete input: the compound `[5]` uses the
target 5 but not 6, so the check fires and the result is empty. -/
theorem extendCompound_c4_amended_witness :
    extendCompound c4ctx ExtendMode.targets [5] c4extensions none false = .ok [] :=
  extendCompound_c4_amended c4ctx ExtendMode.targets [5] c4extensions none false [5] rfl
    (by decide) (by decide)

/-! ## C7 — idempotence of `addExtension` -/

/-- C7: calling `addExtension` on a state in which `extensions[target]`
already exists and already has an entry for every complex of the extender —
as it does right after a first call with equal inputs — changes nothing: each
loop iteration hits the `sources.hasKey(complex)` `continue`, `newExtensions`
stays empty, the early return fires, and the `extensions` map, the
`extensionsByExtender` index, the `sourceSpecificity` map, the `selectors`
reverse index and the registered selector-list contents are all left exactly
as they were. -/
theorem addExtension_idempotent (ctx : ExtenderCtx)
    (extendExistingExtensionsFn : ExtenderState → List Extension → ExtSelExtMap →
      ExtenderState × ExtSelExtMap)
    (extendExistingStyleRulesFn : ExtenderState → List Nat → ExtSelExtMap →
      ExtenderState)
    (st : ExtenderState) (extender : List ComplexSelector) (target : Nat)
    (isOptional : Bool) (mediaQueryContext : Option CssMediaRule)
    (H1 : (List.lookup target st.extensions).isSome = true)
    (H2 : ∀ complex ∈ extender,
      (List.lookup complex (mapGetEntry st.extensions target)).isSome = true) :
    addExtension ctx extendExistingExtensionsFn extendExistingStyleRulesFn st extender
      target isOptional mediaQueryContext = st := by
  have hfold : ∀ (hR hE : Bool) (l : List ComplexSelector),
      (∀ complex ∈ l,
        (List.lookup complex (mapGetEntry st.extensions target)).isSome = true) →
      l.foldl (addExtensionComplex ctx target isOptional mediaQueryContext hR hE)
        (st, []) = (st, []) := by
    intro hR hE l
    induction l with
    | nil => intro _; rfl
    | cons c cs ih =>
      intro hl
      rw [List.foldl_cons]
      have hstep : addExtensionComplex ctx target isOptional mediaQueryContext hR hE
          (st, []) c = (st, []) := by
        unfold addExtensionComplex
        simp only [hl c (List.mem_cons_self _ _), if_true]
      rw [hstep]
      exact ih (fun x hx => hl x (List.mem_cons_of_mem _ hx))
  unfold addExtension
  simp only [H1, if_true]
  rw [show { st with extensions := st.extensions } = st from rfl]
  rw [hfold _ _ extender H2]
  simp

/-- Witness for C7 at a concrete input: repeating the `addExtension` call on
the state it produced is the identity. -/
theorem addExtension_idempotent_witness :
    addExtension c4ctx c7closure c7rules c7state1 [c2y] 5 false none = c7state1 :=
  addExtension_idempotent c4ctx c7closure c7rules c7state1 [c2y] 5 false none
    (by decide) (by decide)

/-! ## C8 — source-map `mappings` serialization -/

/-- C8 counterexample: a single mapping at position (1,1,1) with type 0
serializes to the five-field segment `AAAAA`; the claim's format — 4-tuples
`[genCol, srcIdx, origLine, origCol]` with an optional name index that never
exists (the `names` array is empty and mappings carry none) — would give the
four-field `AAAA`.  The code always emits a fifth field, the delta-encoded
mapping *type*, which is not a name index. -/
theorem serialize_mappings_c8_counterexample :
    serialize_mappings [⟨⟨1, 1, 1⟩, ⟨1, 1, 1⟩, 0⟩] = ['A', 'A', 'A', 'A', 'A'] ∧
    serializeMappingsClaim [⟨⟨1, 1, 1⟩, ⟨1, 1, 1⟩, 0⟩] = ['A', 'A', 'A', 'A'] ∧
    serialize_mappings [⟨⟨1, 1, 1⟩, ⟨1, 1, 1⟩, 0⟩] ≠
      serializeMappingsClaim [⟨⟨1, 1, 1⟩, ⟨1, 1, 1⟩, 0⟩] :=
  ⟨rfl, rfl, by decide⟩

/-- Every 5-bit group produced by `vlqDigitsGo` is below 32. -/
theorem vlqDigitsGo_lt32 : ∀ (fuel n : Nat), ∀ d ∈ vlqDigitsGo fuel n, d < 32 := by
  intro fuel
  induction fuel with
  | zero =>
    intro n d hd
    rw [show vlqDigitsGo 0 n = [n % 32] from rfl, List.mem_singleton] at hd
    omega
  | succ f ih =>
    intro n d hd
    rw [show vlqDigitsGo (f + 1) n =
      (if n / 32 = 0 then [n % 32] else (n % 32) :: vlqDigitsGo f (n / 32)) from rfl] at hd
    split at hd
    · rw [List.mem_singleton] at hd
      omega
    · rcases List.mem_cons.mp hd with rfl | hd'
      · omega
      · exact ih (n / 32) d hd'

/-- Every 5-bit group produced by `vlqDigits` is below 32. -/
theorem vlqDigits_lt32 (n : Nat) : ∀ d ∈ vlqDigits n, d < 32 :=
  vlqDigitsGo_lt32 n n

/-- `vlqDigitsGo` never returns the empty list. -/
theorem vlqDigitsGo_ne_nil (fuel n : Nat) : vlqDigitsGo fuel n ≠ [] := by
  cases fuel with
  | zero => simp [vlqDigitsGo]
  | succ f =>
    rw [show vlqDigitsGo (f + 1) n =
      (if n / 32 = 0 then [n % 32] else (n % 32) :: vlqDigitsGo f (n / 32)) from rfl]
    split <;> simp

/-- `vlqDigits` never returns the empty list. -/
theorem vlqDigits_ne_nil (n : Nat) : vlqDigits n ≠ [] :=
  vlqDigitsGo_ne_nil n n

/-- With sufficient fuel, `digitsToNat` inverts `vlqDigitsGo`. -/
theorem digitsToNat_vlqDigitsGo : ∀ (fuel n : Nat), n ≤ fuel →
    digitsToNat (vlqDigitsGo fuel n) = n := by
  intro fuel
  induction fuel with
  | zero =>
    intro n hn
    rw [show vlqDigitsGo 0 n = [n % 32] from rfl]
    simp only [digitsToNat]
    omega
  | succ f ih =>
    intro n hn
    rw [show vlqDigitsGo (f + 1) n =
      (if n / 32 = 0 then [n % 32] else (n % 32) :: vlqDigitsGo f (n / 32)) from rfl]
    split
    · simp only [digitsToNat]
      omega
    · simp only [digitsToNat]
      rw [ih (n / 32) (by omega)]
      omega

/-- `digitsToNat` inverts `vlqDigits`. -/
theorem digitsToNat_vlqDigits (n : Nat) : digitsToNat (vlqDigits n) = n :=
  digitsToNat_vlqDigitsGo n n le_rfl

/-- Unfolding the VLQ sign fold restores the signed value. -/
theorem fromVlqSigned_toVlqSigned (v : Int) : fromVlqSigned (toVlqSigned v) = v := by
  unfold fromVlqSigned toVlqSigned
  split <;> split <;> omega

/-- Looking up a Base64 character recovers its index. -/
theorem base64Index_getD : ∀ d, d < 64 →
    base64Index (base64Chars.getD d '?') = some d := by decide

/-- Base64 characters are neither `;` nor `,`. -/
theorem base64_getD_no_sep : ∀ d, d < 64 →
    ((base64Chars.getD d '?' == ';') = false ∧
     (base64Chars.getD d '?' == ',') = false) := by decide

/-- Continuation marking keeps the groups below 64. -/
theorem vlqAttachContinuation_lt64 : ∀ (ds : List Nat), (∀ x ∈ ds, x < 32) →
    ∀ d ∈ vlqAttachContinuation ds, d < 64 := by
  intro ds
  induction ds with
  | nil =>
    intro _ d hd
    simp [vlqAttachContinuation] at hd
  | cons a l ih =>
    intro h d hd
    cases l with
    | nil =>
      rw [show vlqAttachContinuation [a] = [a] from rfl, List.mem_singleton] at hd
      subst hd
      have := h d (List.mem_cons_self _ _)
      omega
    | cons b m =>
      rw [show vlqAttachContinuation (a :: b :: m) =
        (a + 32) :: vlqAttachContinuation (b :: m) from rfl, List.mem_cons] at hd
      rcases hd with rfl | hd'
      · have := h a (List.mem_cons_self _ _)
        omega
      · exact ih (fun x hx => h x (List.mem_cons_of_mem _ hx)) d hd'

/-- The characters of an encoded VLQ are Base64 characters, never `;` or
`,`. -/
theorem encodeVLQ_no_sep (v : Int) :
    ∀ c ∈ encodeVLQ v, (c == ';') = false ∧ (c == ',') = false := by
  intro c hc
  unfold encodeVLQ at hc
  rw [List.mem_map] at hc
  obtain ⟨d, hd, rfl⟩ := hc
  exact base64_getD_no_sep d
    (vlqAttachContinuation_lt64 _ (vlqDigits_lt32 _) d hd)

/-- An encoded VLQ is nonempty. -/
theorem encodeVLQ_ne_nil (v : Int) : encodeVLQ v ≠ [] := by
  unfold encodeVLQ
  cases hd : vlqDigits (toVlqSigned v) with
  | nil => exact absurd hd (vlqDigits_ne_nil _)
  | cons a l => cases l <;> simp [vlqAttachContinuation]

/-- Parsing picks up an encoded VLQ and leaves the remainder. -/
theorem parseVLQDigits_roundtrip :
    ∀ (ds : List Nat), ds ≠ [] → (∀ d ∈ ds, d < 32) →
    ∀ rest, parseVLQDigits ((vlqAttachContinuation ds).map
        (fun d => base64Chars.getD d '?') ++ rest) = some (ds, rest) := by
  intro ds
  induction ds with
  | nil => intro h; exact absurd rfl h
  | cons d ds ih =>
    intro _ hlt rest
    cases ds with
    | nil =>
      have hd : d < 32 := hlt d (List.mem_cons_self _ _)
      rw [show vlqAttachContinuation [d] = [d] from rfl]
      simp only [List.map_cons, List.map_nil, List.cons_append, List.nil_append,
        parseVLQDigits]
      rw [base64Index_getD d (by omega)]
      simp [hd]
    | cons d2 ds2 =>
      have hd : d < 32 := hlt d (List.mem_cons_self _ _)
      rw [show vlqAttachContinuation (d :: d2 :: ds2) =
        (d + 32) :: vlqAttachContinuation (d2 :: ds2) from rfl]
      simp only [List.map_cons, List.cons_append, parseVLQDigits]
      rw [base64Index_getD (d + 32) (by omega)]
      have hge : ¬(d + 32 < 32) := by omega
      simp only [hge, if_false, List.append_eq]
      rw [ih (by simp) (fun x hx => hlt x (List.mem_cons_of_mem _ hx)) rest]
      simp

/-- `parseVLQ` inverts `encodeVLQ`, leaving the remainder intact. -/
theorem parseVLQ_encodeVLQ (v : Int) (rest : List Char) :
    parseVLQ (encodeVLQ v ++ rest) = some (v, rest) := by
  unfold parseVLQ encodeVLQ
  rw [parseVLQDigits_roundtrip (vlqDigits (toVlqSigned v)) (vlqDigits_ne_nil _)
    (vlqDigits_lt32 _) rest]
  simp [digitsToNat_vlqDigits, fromVlqSigned_toVlqSigned]

/-- `parse5` inverts five consecutive encoded VLQs. -/
theorem parse5_encode (d1 d2 d3 d4 d5 : Int) (tail : List Char) :
    parse5 (encodeVLQ d1 ++ (encodeVLQ d2 ++ (encodeVLQ d3 ++ (encodeVLQ d4 ++
      (encodeVLQ d5 ++ tail))))) = some (d1, d2, d3, d4, d5, tail) := by
  unfold parse5
  simp [parseVLQ_encodeVLQ]

/-- `castInt` is the identity below `2^31`. -/
theorem castInt_eq (n : Nat) (h : n < 2147483648) : castInt n = (n : Int) := by
  unfold castInt
  rw [if_pos (by omega : n % 4294967296 < 2147483648)]
  omega

/-- `szSub1` is exact subtraction on the stored 1-based positions. -/
theorem szSub1_eq (n : Nat) (h1 : 1 ≤ n) (h2 : n < 18446744073709551616) :
    szSub1 n = n - 1 := by
  unfold szSub1
  omega

/-- Splitting a run of semicolons followed by a non-semicolon. -/
theorem semis_split (k : Nat) (rest : List Char)
    (h : ∀ c, rest.head? = some c → (c == ';') = false) :
    (List.replicate k ';' ++ rest).takeWhile (fun c => c == ';') = List.replicate k ';' ∧
    (List.replicate k ';' ++ rest).dropWhile (fun c => c == ';') = rest := by
  induction k with
  | zero =>
    simp only [List.replicate, List.nil_append]
    cases rest with
    | nil => simp
    | cons c cs =>
      have hc := h c rfl
      simp [List.takeWhile_cons, List.dropWhile_cons, hc]
  | succ n ih =>
    simp [List.replicate_succ, List.takeWhile_cons, List.dropWhile_cons, ih.1, ih.2]

/-- The head of an encoded VLQ (with anything appended) is not a
semicolon. -/
theorem encode_head_no_semi (v : Int) (rest : List Char) :
    ∀ c, (encodeVLQ v ++ rest).head? = some c → (c == ';') = false := by
  intro c hc
  cases he : encodeVLQ v with
  | nil => exact absurd he (encodeVLQ_ne_nil v)
  | cons x xs =>
    rw [he] at hc
    simp only [List.cons_append, List.head?_cons, Option.some_inj] at hc
    subst hc
    exact (encodeVLQ_no_sep v x (by rw [he]; exact List.mem_cons_self _ _)).1

/-- The head of an encoded VLQ (with anything appended) is not a comma. -/
theorem encode_head_no_comma (v : Int) (rest : List Char) :
    ∀ c, (encodeVLQ v ++ rest).head? = some c → (c == ',') = false := by
  intro c hc
  cases he : encodeVLQ v with
  | nil => exact absurd he (encodeVLQ_ne_nil v)
  | cons x xs =>
    rw [he] at hc
    simp only [List.cons_append, List.head?_cons, Option.some_inj] at hc
    subst hc
    exact (encodeVLQ_no_sep v x (by rw [he]; exact List.mem_cons_self _ _)).2

/-- An encoded VLQ followed by anything has no leading semicolon run. -/
theorem takeWhile_semi_encode (v : Int) (r : List Char) :
    (encodeVLQ v ++ r).takeWhile (fun c => c == ';') = [] := by
  have h := (semis_split 0 (encodeVLQ v ++ r) (encode_head_no_semi v r)).1
  simpa using h

/-- An encoded VLQ followed by anything is a non-empty string. -/
theorem isEmpty_encode_append (v : Int) (r : List Char) :
    (encodeVLQ v ++ r).isEmpty = false := by
  cases he : encodeVLQ v with
  | nil => exact absurd he (encodeVLQ_ne_nil v)
  | cons x xs => rfl

/-- Every mapping contributes at least one character (its first VLQ field),
so the serialized string is at least as long as the mapping list. -/
theorem length_le_serialize_mappings_go (ms : List Mapping) :
    ∀ (nf : Bool) (st : SerState),
      ms.length ≤ (serialize_mappings_go ms nf st).length := by
  induction ms with
  | nil => intro nf st; simp [serialize_mappings_go]
  | cons m rest ih =>
    intro nf st
    simp only [serialize_mappings_go, List.append_assoc, List.length_cons,
      List.length_append]
    refine le_trans ?_ (Nat.le_add_left _ _)
    rw [Nat.add_comm rest.length 1]
    refine Nat.add_le_add ?_ ?_
    · exact List.length_pos.mpr (encodeVLQ_ne_nil _)
    · refine le_trans ?_ (Nat.le_add_left _ _)
      refine le_trans ?_ (Nat.le_add_left _ _)
      refine le_trans ?_ (Nat.le_add_left _ _)
      refine le_trans ?_ (Nat.le_add_left _ _)
      exact ih true _

/-- C8 (amended): for mappings with 1-based fields below `2^31` and
non-decreasing generated lines, the serialized string decodes — segment by
segment, consuming one `,` between same-line segments and runs of `;` at
line advances (each run resetting the generated-column base) and five
Base64-VLQ delta fields per segment — back to exactly the mappings'
absolute 0-based fields `[generated line, generated column, source index,
original line, original column, type]`: the fifth in-segment field is the
delta-encoded mapping type, not a name index. -/
theorem decodeGo_serialize_mappings_go (ms : List Mapping) :
    ∀ (fuel : Nat) (st : SerState) (notFirst : Bool),
      ms.length < fuel →
      (∀ m ∈ ms, mappingBounds m) →
      st.previous_generated_column < 2147483648 →
      st.previous_original_file < 2147483648 →
      st.previous_original_line < 2147483648 →
      st.previous_original_column < 2147483648 →
      st.previous_original_type < 2147483648 →
      linesChainFrom st.previous_generated_line ms →
      decodeGo fuel (serialize_mappings_go ms notFirst st) (!notFirst)
          st.previous_generated_line (st.previous_generated_column : Int)
          (st.previous_original_file : Int) (st.previous_original_line : Int)
          (st.previous_original_column : Int) (st.previous_original_type : Int)
        = some (ms.map expectedSeg) := by
  induction ms with
  | nil =>
    intro fuel st notFirst hfuel _ _ _ _ _ _ _
    obtain ⟨f, rfl⟩ : ∃ f, fuel = f + 1 := ⟨fuel - 1, by omega⟩
    simp [serialize_mappings_go, decodeGo]
  | cons m rest ih =>
    intro fuel st notFirst hfuel hb hc1 hc2 hc3 hc4 hc5 hchain
    obtain ⟨f, rfl⟩ : ∃ f, fuel = f + 1 := ⟨fuel - 1, by omega⟩
    have hbm := hb m (List.mem_cons_self _ _)
    have hbrest : ∀ x ∈ rest, mappingBounds x :=
      fun x hx => hb x (List.mem_cons_of_mem _ hx)
    obtain ⟨hgl1, hgl2, hgc1, hgc2, hof1, hof2, hol1, hol2, hoc1, hoc2, hty⟩ := hbm
    obtain ⟨hline, hchain'⟩ := hchain
    have hszgl : szSub1 m.generated_position.line = m.generated_position.line - 1 :=
      szSub1_eq _ hgl1 (by omega)
    have hszgc : szSub1 m.generated_position.column = m.generated_position.column - 1 :=
      szSub1_eq _ hgc1 (by omega)
    have hszof : szSub1 m.original_position.file = m.original_position.file - 1 :=
      szSub1_eq _ hof1 (by omega)
    have hszol : szSub1 m.original_position.line = m.original_position.line - 1 :=
      szSub1_eq _ hol1 (by omega)
    have hszoc : szSub1 m.original_position.column = m.original_position.column - 1 :=
      szSub1_eq _ hoc1 (by omega)
    -- the five encoded deltas and the post-segment state
    set gl := m.generated_position.line - 1 with hgl
    set gc := m.generated_position.column - 1 with hgc
    set ofi := m.original_position.file - 1 with hofi
    set ol := m.original_position.line - 1 with hol
    set oc := m.original_position.column - 1 with hoc
    rcases Nat.lt_or_ge st.previous_generated_line gl with hadv | hsame
    · -- generated line advances: a run of semicolons, column base reset
      obtain ⟨k, hk⟩ := Nat.exists_eq_add_of_lt hadv
      have hcount : gl - st.previous_generated_line = k + 1 := by omega
      have hser : serialize_mappings_go (m :: rest) notFirst st =
          List.replicate (k + 1) ';' ++
          (encodeVLQ (castInt gc - castInt 0) ++
          (encodeVLQ (castInt (m.original_position.file - 1) - castInt st.previous_original_file) ++
          (encodeVLQ (castInt (m.original_position.line - 1) - castInt st.previous_original_line) ++
          (encodeVLQ (castInt (m.original_position.column - 1) - castInt st.previous_original_column) ++
          (encodeVLQ (castInt m.type - castInt st.previous_original_type) ++
          serialize_mappings_go rest true
            ⟨gl, gc, ol, oc, ofi, m.type⟩))))) := by
        simp only [serialize_mappings_go, hszgl, hszgc, hszof, hszol, hszoc]
        rw [if_pos (by omega : gl ≠ st.previous_generated_line)]
        rw [if_pos (by omega : gl > st.previous_generated_line)]
        simp [List.append_assoc, hcount]
      rw [hser]
      rw [decodeGo]
      have hne : ¬(List.replicate (k + 1) ';' ++
          (encodeVLQ (castInt gc - castInt 0) ++
          (encodeVLQ (castInt (m.original_position.file - 1) - castInt st.previous_original_file) ++
          (encodeVLQ (castInt (m.original_position.line - 1) - castInt st.previous_original_line) ++
          (encodeVLQ (castInt (m.original_position.column - 1) - castInt st.previous_original_column) ++
          (encodeVLQ (castInt m.type - castInt st.previous_original_type) ++
          serialize_mappings_go rest true
            ⟨gl, gc, ol, oc, ofi, m.type⟩)))))).isEmpty = true := by
        simp [List.replicate_succ]
      rw [if_neg hne]
      have hsplit := semis_split (k + 1)
        (encodeVLQ (castInt gc - castInt 0) ++
          (encodeVLQ (castInt (m.original_position.file - 1) - castInt st.previous_original_file) ++
          (encodeVLQ (castInt (m.original_position.line - 1) - castInt st.previous_original_line) ++
          (encodeVLQ (castInt (m.original_position.column - 1) - castInt st.previous_original_column) ++
          (encodeVLQ (castInt m.type - castInt st.previous_original_type) ++
          serialize_mappings_go rest true
            ⟨gl, gc, ol, oc, ofi, m.type⟩)))))
        (encode_head_no_semi _ _)
      rw [hsplit.1, hsplit.2]
      have hsemine : (List.replicate (k + 1) ';').isEmpty = false := by
        simp [List.replicate_succ]
      have hlineeq : st.previous_generated_line + (k + 1) = gl := by omega
      have e1 : (0 : Int) + (castInt gc - castInt 0) = (gc : Int) := by
        rw [castInt_eq gc (by omega), castInt_eq 0 (by omega)]
        ring
      have e2 : (st.previous_original_file : Int) +
          (castInt (m.original_position.file - 1) - castInt st.previous_original_file) =
          (ofi : Int) := by
        rw [castInt_eq _ (by omega), castInt_eq st.previous_original_file (by omega)]
        rw [hofi]
        ring
      have e3 : (st.previous_original_line : Int) +
          (castInt (m.original_position.line - 1) - castInt st.previous_original_line) =
          (ol : Int) := by
        rw [castInt_eq _ (by omega), castInt_eq st.previous_original_line (by omega)]
        rw [hol]
        ring
      have e4 : (st.previous_original_column : Int) +
          (castInt (m.original_position.column - 1) - castInt st.previous_original_column) =
          (oc : Int) := by
        rw [castInt_eq _ (by omega), castInt_eq st.previous_original_column (by omega)]
        rw [hoc]
        ring
      have e5 : (st.previous_original_type : Int) +
          (castInt m.type - castInt st.previous_original_type) = (m.type : Int) := by
        rw [castInt_eq _ (by omega), castInt_eq st.previous_original_type (by omega)]
        ring
      have hfuel' : rest.length < f := by
        simp only [List.length_cons] at hfuel
        omega
      have hrec := ih f ⟨gl, gc, ol, oc, ofi, m.type⟩ true hfuel' hbrest
        (by show gc < 2147483648; omega) (by show ofi < 2147483648; omega)
        (by show ol < 2147483648; omega) (by show oc < 2147483648; omega)
        (by show m.type < 2147483648; omega)
        (by show linesChainFrom gl rest; exact hchain')
      simp only [Bool.not_true] at hrec
      simp [hsemine, parse5_encode, hlineeq, e1, e2, e3, e4, e5, hrec, expectedSeg]
      all_goals
        intro r hcontra
        rw [List.replicate_succ, List.cons_append] at hcontra
        injection hcontra with h1 h2
        exact absurd h1 (by decide)
    · -- same generated line (equality, by the chain hypothesis)
      have heq : gl = st.previous_generated_line := by omega
      have hser : serialize_mappings_go (m :: rest) notFirst st =
          (if notFirst then [','] else []) ++
          (encodeVLQ (castInt gc - castInt st.previous_generated_column) ++
          (encodeVLQ (castInt (m.original_position.file - 1) - castInt st.previous_original_file) ++
          (encodeVLQ (castInt (m.original_position.line - 1) - castInt st.previous_original_line) ++
          (encodeVLQ (castInt (m.original_position.column - 1) - castInt st.previous_original_column) ++
          (encodeVLQ (castInt m.type - castInt st.previous_original_type) ++
          serialize_mappings_go rest true
            ⟨st.previous_generated_line, gc, ol, oc, ofi, m.type⟩))))) := by
        simp only [serialize_mappings_go, hszgl, hszgc, hszof, hszol, hszoc]
        rw [if_neg (by omega : ¬(gl ≠ st.previous_generated_line))]
        cases notFirst <;> simp [List.append_assoc]
      have hfuel' : rest.length < f := by
        simp only [List.length_cons] at hfuel
        omega
      have hrec := ih f ⟨st.previous_generated_line, gc, ol, oc, ofi, m.type⟩ true
        hfuel' hbrest
        (by show gc < 2147483648; omega) (by show ofi < 2147483648; omega)
        (by show ol < 2147483648; omega) (by show oc < 2147483648; omega)
        (by show m.type < 2147483648; omega)
        (by show linesChainFrom st.previous_generated_line rest; rw [← heq]; exact hchain')
      simp only [Bool.not_true] at hrec
      have e1 : (st.previous_generated_column : Int) +
          (castInt gc - castInt st.previous_generated_column) = (gc : Int) := by
        rw [castInt_eq gc (by omega), castInt_eq st.previous_generated_column (by omega)]
        ring
      have e2 : (st.previous_original_file : Int) +
          (castInt (m.original_position.file - 1) - castInt st.previous_original_file) =
          (ofi : Int) := by
        rw [castInt_eq _ (by omega), castInt_eq st.previous_original_file (by omega)]
        rw [hofi]
        ring
      have e3 : (st.previous_original_line : Int) +
          (castInt (m.original_position.line - 1) - castInt st.previous_original_line) =
          (ol : Int) := by
        rw [castInt_eq _ (by omega), castInt_eq st.previous_original_line (by omega)]
        rw [hol]
        ring
      have e4 : (st.previous_original_column : Int) +
          (castInt (m.original_position.column - 1) - castInt st.previous_original_column) =
          (oc : Int) := by
        rw [castInt_eq _ (by omega), castInt_eq st.previous_original_column (by omega)]
        rw [hoc]
        ring
      have e5 : (st.previous_original_type : Int) +
          (castInt m.type - castInt st.previous_original_type) = (m.type : Int) := by
        rw [castInt_eq _ (by omega), castInt_eq st.previous_original_type (by omega)]
        ring
      cases notFirst
      · -- first segment of the whole string: no separator
        rw [hser]
        simp only [Bool.false_eq_true, if_false, List.nil_append]
        rw [decodeGo]
        simp [isEmpty_encode_append, takeWhile_semi_encode, parse5_encode,
          e1, e2, e3, e4, e5, hrec, expectedSeg]
        all_goals
          first
          | omega
          | (intro r hcontra
             have hh := encode_head_no_comma _ _ ',' (by rw [hcontra]; rfl)
             simp at hh)
      · -- later segment on the same line: one comma
        rw [hser]
        simp only [eq_self_iff_true, if_true, List.singleton_append]
        rw [decodeGo]
        simp [show ((',' : Char) == ';') = false from rfl, List.takeWhile_cons,
          parse5_encode, e1, e2, e3, e4, e5, hrec, expectedSeg]
        all_goals omega

/-- Top-level C8 (amended) round-trip: decoding the serialized `mappings`
string recovers every mapping's absolute fields. -/
theorem decodeMappings_serialize_mappings (ms : List Mapping)
    (hb : ∀ m ∈ ms, mappingBounds m)
    (hchain : linesChainFrom 0 ms) :
    decodeMappings (serialize_mappings ms) = some (ms.map expectedSeg) := by
  unfold decodeMappings serialize_mappings
  exact decodeGo_serialize_mappings_go ms
    ((serialize_mappings_go ms false ⟨0, 0, 0, 0, 0, 0⟩).length + 1)
    ⟨0, 0, 0, 0, 0, 0⟩ false
    (Nat.lt_succ_of_le (length_le_serialize_mappings_go ms false _))
    hb (by norm_num) (by norm_num) (by norm_num) (by norm_num) (by norm_num) hchain

/-- Witness for the amended C8 theorem: a concrete mapping round-trips. -/
theorem decodeMappings_serialize_mappings_witness :
    (∀ m ∈ [Mapping.mk ⟨1, 2, 3⟩ ⟨1, 1, 5⟩ 7], mappingBounds m) ∧
    linesChainFrom 0 [Mapping.mk ⟨1, 2, 3⟩ ⟨1, 1, 5⟩ 7] ∧
    decodeMappings (serialize_mappings [Mapping.mk ⟨1, 2, 3⟩ ⟨1, 1, 5⟩ 7]) =
      some ([Mapping.mk ⟨1, 2, 3⟩ ⟨1, 1, 5⟩ 7].map expectedSeg) :=
  ⟨by norm_num [mappingBounds], by norm_num [linesChainFrom],
   decodeMappings_serialize_mappings [Mapping.mk ⟨1, 2, 3⟩ ⟨1, 1, 5⟩ 7]
     (by norm_num [mappingBounds]) (by norm_num [linesChainFrom])⟩

/-! ## C9 — number emission -/

/-- `dropWhile` runs through a prefix and stops at a failing element. -/
theorem dropWhile_append_stop (p : Char → Bool) (xs ys : List Char) (y : Char)
    (hy : p y = false) :
    (xs ++ y :: ys).dropWhile p = xs.dropWhile p ++ y :: ys := by
  induction xs with
  | nil => simp [List.dropWhile_cons, hy]
  | cons x xt ih =>
    by_cases hx : p x = true <;> simp [List.dropWhile_cons, hx, ih]

/-- Stripping trailing zeros from a string with a decimal point only affects
the part after the point. -/
theorem stripTrailingZeros_dot (ipart frac : List Char) :
    stripTrailingZeros (ipart ++ '.' :: frac) =
      ipart ++ '.' :: stripTrailingZeros frac := by
  unfold stripTrailingZeros
  rw [List.reverse_append, List.reverse_cons,
    show frac.reverse ++ ['.'] ++ ipart.reverse = frac.reverse ++ '.' :: ipart.reverse by simp,
    dropWhile_append_stop _ _ _ _ (by decide)]
  simp

/-- The default-last of a nonempty list is a member. -/
theorem getLastD_mem_cons (c : Char) (rest : List Char) (d : Char) :
    (c :: rest).getLastD d ∈ c :: rest := by
  induction rest generalizing c with
  | nil => simp [List.getLastD_cons]
  | cons r rs ih =>
    rw [List.getLastD_cons]
    exact List.mem_cons_of_mem _ (ih r)

/-- The default-last of an appended nonempty tail ignores the prefix. -/
theorem getLastD_append_cons (xs ys : List Char) (y d : Char) :
    (xs ++ y :: ys).getLastD d = (y :: ys).getLastD d := by
  induction xs generalizing d with
  | nil => rfl
  | cons x xt ih =>
    rw [List.cons_append, List.getLastD_cons, ih, List.getLastD_cons, List.getLastD_cons]

/-- Elements surviving `stripTrailingZeros` come from the original list. -/
theorem mem_of_mem_stripTrailingZeros (c : Char) (frac : List Char)
    (h : c ∈ stripTrailingZeros frac) : c ∈ frac := by
  unfold stripTrailingZeros at h
  rw [List.mem_reverse] at h
  exact List.mem_reverse.mp ((frac.reverse.dropWhile_sublist _).mem h)

/-- C9 (amended), in three parts.
Errors: `inspectNumber` raises an error exactly when the number has more
than one numerator unit, a denominator unit, or a (first) numerator unit
containing `'/'` or `'*'`, and every such message ends in
`" isn't a valid CSS value."`.
Stripping: when the formatted value contains a decimal point (configured
precision positive), only trailing *fractional* zeros are stripped — the
digits before the point survive unchanged (at precision 0 the code also
strips trailing zeros of the integer part, see the counterexample).
Truncation: a non-zero value formatted as `0.00…0` is emitted as `0.0`. -/
theorem inspectNumber_c9_amended :
    (∀ (d0 : List Char) (valueNonzero : Bool) (numUnits denUnits : List (List Char))
        (unit : List Char) (zeroFlag inDeclarationList : Bool),
      ((∃ msg, inspectNumber d0 valueNonzero numUnits denUnits unit zeroFlag
          inDeclarationList = .error msg) ↔
        numberUnitsInvalid numUnits denUnits = true) ∧
      (∀ msg, inspectNumber d0 valueNonzero numUnits denUnits unit zeroFlag
          inDeclarationList = .error msg →
        ∃ pre, msg = pre ++ (" isn't a valid CSS value.".data))) ∧
    (∀ (ipart frac : List Char) (valueNonzero : Bool)
        (numUnits denUnits : List (List Char)) (unit : List Char)
        (inDeclarationList : Bool),
      numberUnitsInvalid numUnits denUnits = false →
      (∀ c ∈ frac, ¬(c = '.')) →
      ipart ≠ ['-', '0'] →
      ¬(ipart = ['0'] ∧ stripTrailingZeros frac = [] ∧ valueNonzero = true) →
      inspectNumber (ipart ++ '.' :: frac) valueNonzero numUnits denUnits unit true
          inDeclarationList =
        .ok (dropTrailingDot (ipart ++ '.' :: stripTrailingZeros frac) ++ unit)) ∧
    (∀ (frac : List Char) (numUnits denUnits : List (List Char)) (unit : List Char)
        (zeroFlag inDeclarationList : Bool),
      numberUnitsInvalid numUnits denUnits = false →
      (∀ c ∈ frac, c = '0') →
      inspectNumber ('0' :: '.' :: frac) true numUnits denUnits unit zeroFlag
          inDeclarationList = .ok (['0', '.', '0'] ++ unit)) := by
  refine ⟨fun d0 vnz nu du unit zf idl => ⟨⟨?_, ?_⟩, ?_⟩,
    fun ipart frac vnz nu du unit idl hv hdot hneg hz => ?_,
    fun frac nu du unit zf idl hv hfrac => ?_⟩
  · rintro ⟨msg, hmsg⟩
    by_contra h
    have h' : numberUnitsInvalid nu du = false := by
      cases hval : numberUnitsInvalid nu du
      · rfl
      · exact absurd hval h
    simp [inspectNumber, h'] at hmsg
  · intro h
    refine ⟨dropTrailingDot (stripTrailingZeros d0) ++ unit ++
      (" isn't a valid CSS value.".data), ?_⟩
    simp [inspectNumber, h]
  · intro msg hmsg
    cases hval : numberUnitsInvalid nu du
    · simp [inspectNumber, hval] at hmsg
    · simp only [inspectNumber, hval, if_true, Except.error.injEq] at hmsg
      exact ⟨dropTrailingDot (stripTrailingZeros d0) ++ unit,
        by rw [← hmsg, List.append_assoc]⟩
  · -- fractional stripping
    have hstrip := stripTrailingZeros_dot ipart frac
    simp only [inspectNumber, hv, Bool.false_eq_true, if_false, hstrip, Bool.not_true,
      Bool.false_and, ite_false]
    cases hfrac : stripTrailingZeros frac with
    | nil =>
      have hdt : dropTrailingDot (ipart ++ '.' :: ([] : List Char)) = ipart := by
        unfold dropTrailingDot
        rw [show (ipart ++ '.' :: ([] : List Char)).getLastD 'x' = '.' from
          getLastD_append_singleton ipart '.' 'x']
        simp [List.dropLast_concat]
      rw [hdt]
      have h1 : (ipart == ['-', '0']) = false := by
        simp only [beq_eq_false_iff_ne]; exact hneg
      have h2 : (ipart == ['0'] && vnz) = false := by
        cases hip : ipart == ['0']
        · simp
        · cases hvz : vnz
          · simp
          · exact absurd ⟨by simpa using hip, hfrac, hvz⟩ hz
      simp [h1, h2]
    | cons c rest =>
      have hlast : (ipart ++ '.' :: c :: rest).getLastD 'x' ∈ c :: rest := by
        rw [getLastD_append_cons, List.getLastD_cons]
        exact getLastD_mem_cons c rest '.'
      have hlastne : ((ipart ++ '.' :: c :: rest).getLastD 'x' == '.') = false := by
        simp only [beq_eq_false_iff_ne]
        intro hcontra
        have hmem1 : ('.' : Char) ∈ c :: rest := hcontra ▸ hlast
        have hmem2 : ('.' : Char) ∈ stripTrailingZeros frac := by
          rw [hfrac]; exact hmem1
        exact hdot '.' (mem_of_mem_stripTrailingZeros _ _ hmem2) rfl
      have hdt : dropTrailingDot (ipart ++ '.' :: c :: rest) = ipart ++ '.' :: c :: rest := by
        unfold dropTrailingDot
        rw [hlastne]
        simp
      rw [hdt]
      have hdotmem : ('.' : Char) ∈ ipart ++ '.' :: c :: rest := by simp
      have h1 : (ipart ++ '.' :: c :: rest == ['-', '0']) = false := by
        simp only [beq_eq_false_iff_ne]
        intro hcontra
        rw [hcontra] at hdotmem
        simp at hdotmem
      have h2 : ((ipart ++ '.' :: c :: rest == ['0']) && vnz) = false := by
        have hne0 : (ipart ++ '.' :: c :: rest == ['0']) = false := by
          simp only [beq_eq_false_iff_ne]
          intro hcontra
          rw [hcontra] at hdotmem
          simp at hdotmem
        simp [hne0]
      simp [h1, h2]
  · -- truncation to 0.0
    have hstrip : stripTrailingZeros ('0' :: '.' :: frac) = '0' :: '.' :: ([] : List Char) := by
      have hsplit : ('0' : Char) :: '.' :: frac = ['0'] ++ '.' :: frac := rfl
      rw [hsplit, stripTrailingZeros_dot]
      have hnil : stripTrailingZeros frac = [] := by
        unfold stripTrailingZeros
        have hdw : frac.reverse.dropWhile (fun c => c == '0') = [] := by
          rw [List.dropWhile_eq_nil_iff]
          intro x hx
          simp [hfrac x (List.mem_reverse.mp hx)]
        simp [hdw]
      simp [hnil]
    have hdt : dropTrailingDot ('0' :: '.' :: ([] : List Char)) = ['0'] := by decide
    cases zf <;> cases idl <;> simp [inspectNumber, hv, hstrip, hdt]

/-- Witness for C9 (amended) at a concrete input: `1.50` with unit `px`
emits `1.5px` (only the fractional zero stripped). -/
theorem inspectNumber_c9_amended_witness :
    inspectNumber ['1', '.', '5', '0'] true [['p', 'x']] [] ['p', 'x'] true false =
      .ok ['1', '.', '5', 'p', 'x'] := by
  have h := inspectNumber_c9_amended.2.1 ['1'] ['5', '0'] true [['p', 'x']] []
    ['p', 'x'] false rfl (by decide) (by decide) (by decide)
  simpa using h

/-- C9 counterexample: at configured precision 0 the fixed formatting of the
integer-valued number 100 is the digit string `100` with no decimal point;
the stripping loop then removes the trailing *integer* zeros, so `100px` is
emitted as `1px` — the claim's "trailing fractional zeros stripped" (which
would leave `100px`) is violated. -/
theorem inspectNumber_c9_counterexample :
    inspectNumber (fixedFormatNat 100 0) true [['p', 'x']] [] ['p', 'x'] true true =
      .ok ['1', 'p', 'x'] ∧
    ['1', 'p', 'x'] ≠ ['1', '0', '0', 'p', 'x'] :=
  ⟨rfl, by decide⟩

end LibSass
